import Mathlib

/-!
# wdi-opencbm: installation orchestrator

A shallow embedding of `main` of `examples/wdi-opencbm.c` (lines 181-225, the
part after option parsing) and of the static table `usb_devices`.

The four libwdi primitives the orchestrator calls are external.  They are
modelled by an environment `Env` that fixes the status each call returns, and
every call is recorded, in order, in a trace of `Call` events.  Printing
(`oprintf`, `wdi_strerror`) and `wdi_set_log_level` carry no control flow and
are not recorded.
-/

namespace WdiOpenCBM

/-- Modelled from the spec: the status `WDI_SUCCESS` is declared in `libwdi.h`,
which is not part of the sources at hand; the specification gives success the
value 0.  Every other status is a failure. -/
def WDI_SUCCESS : Int := 0

/-- Macro `VID` (line 49). -/
def VID : Nat := 0x16d0

/-- Macro `PID` (line 50). -/
def PID : Nat := 0x0504

/-- Macro `DESC` (line 48). -/
def DESC : String := "OpenCBM devices"

/-- Entry type of the known-device table, `struct USB_DEVICES` (lines 54-57). -/
structure USB_DEVICES where
  vid : Nat
  pid : Nat
deriving DecidableEq, Repr

/-- The known-device table `usb_devices` (lines 59-67), in table order. -/
def usb_devices : List USB_DEVICES :=
  [ { vid := 0x0403, pid := 0xc632 },   -- xu1541
    { vid := 0x16d0, pid := 0x0504 },   -- xum1541
    { vid := 0x03eb, pid := 0x2ff0 },   -- Atmel Firmware upgrade ATMega32U2
    { vid := 0x03eb, pid := 0x2ff4 },   -- Atmel Firmware upgrade ATMega32U4
    { vid := 0x03eb, pid := 0x2ffa },   -- Atmel Firmware upgrade AT90USB162
    { vid := 0x03eb, pid := 0x2ffb } ]  -- Atmel Firmware upgrade AT90USB1287

/-- Modelled from the spec: `struct wdi_device_info` is declared in `libwdi.h`,
which is not part of the sources at hand.  The fields are the ones `main`
reads, writes or initialises (vendor ID, product ID, composite flag,
sub-interface number `mi`, description, driver, device ID, hardware ID); a
`char*` is an optional string (`none` is `NULL`), and the `next` link is
represented by the enumeration result being a `List`. -/
structure wdi_device_info where
  vid : Nat
  pid : Nat
  is_composite : Bool
  mi : Nat
  desc : Option String
  driver : Option String
  device_id : Option String
  hardware_id : Option String
deriving DecidableEq, Repr

/-- Initial value of the static `dev` of `main` (line 105):
`{NULL, VID, PID, FALSE, 0, DESC, NULL, NULL, NULL}`. -/
def dev_init : wdi_device_info :=
  { vid := VID, pid := PID, is_composite := false, mi := 0, desc := some DESC,
    driver := none, device_id := none, hardware_id := none }

/-- The two places of `main` that call `wdi_install_driver`: inside the match
loop (line 212) and the unconditional call after it (line 221). -/
inductive Site where
  | match_loop
  | fallback
deriving DecidableEq, Repr

/-- One call of an external libwdi primitive, with the descriptor or name it
is given. -/
inductive Call where
  | sign_driver_inf (dev : wdi_device_info)
  | install_trusted_certificate (cert_name : String)
  | create_list
  | install_driver (site : Site) (dev : wdi_device_info)
deriving DecidableEq, Repr

/-- The options of `main` that reach the orchestration after `getopt_long`:
`opt_extract` (an `int`, non-zero once `-x` was given) and `cert_name`
(`NULL` unless `-c` was given). -/
structure Config where
  opt_extract : Int
  cert_name : Option String
deriving DecidableEq, Repr

/-- What the external primitives answer in one run.  `install_driver k d` is
the status of the call of `wdi_install_driver` that is preceded by `k` earlier
calls of it and is given the descriptor `d`; `create_list` is the status of
`wdi_create_list` together with the list it stores in `ldev`. -/
structure Env where
  sign_driver_inf : Int
  install_trusted_certificate : Int
  create_list : Int × List wdi_device_info
  install_driver : Nat → wdi_device_info → Int

/-- The variables of `main` that the installation stage reads and writes,
and the trace of external calls issued so far. -/
structure St where
  dev : wdi_device_info
  matching_device_found : Bool
  r : Int
  calls : List Call
deriving DecidableEq, Repr

/-- Descriptors of the `wdi_install_driver` calls of a trace, in order. -/
def installs : List Call → List wdi_device_info
  | [] => []
  | Call.install_driver _ d :: cs => d :: installs cs
  | _ :: cs => installs cs

/-- Descriptors of the `wdi_install_driver` calls of a trace issued at one
call site, in order. -/
def installs_at (site : Site) : List Call → List wdi_device_info
  | [] => []
  | Call.install_driver s d :: cs =>
      if s = site then d :: installs_at site cs else installs_at site cs
  | _ :: cs => installs_at site cs

/-- Call of `wdi_install_driver(&dev, ...)` from `site`: records the call and
stores the returned status in `r`. -/
def call_install_driver (env : Env) (site : Site) (s : St) : St :=
  { s with
    r := env.install_driver (installs s.calls).length s.dev
    calls := s.calls ++ [Call.install_driver site s.dev] }

/-- The test of line 205 between an enumerated device and the descriptor. -/
def ids_equal (ldev dev : wdi_device_info) : Bool :=
  ldev.vid == dev.vid && ldev.pid == dev.pid && ldev.mi == dev.mi
    && ldev.is_composite == dev.is_composite

/-- Body of the inner loop (lines 203-214) for table entry `t`. -/
def check_usb_body (env : Env) (ldev : wdi_device_info) (t : USB_DEVICES) (s : St) : St :=
  let s1 : St := { s with dev := { s.dev with vid := t.vid, pid := t.pid } }
  if ids_equal ldev s1.dev then
    let s2 : St :=
      { s1 with
        dev := { s1.dev with hardware_id := ldev.hardware_id, device_id := ldev.device_id }
        matching_device_found := true }
    call_install_driver env Site.match_loop s2
  else s1

/-- Inner loop (lines 202-215): every entry of the table, in table order. -/
def check_usb_loop (env : Env) (ldev : wdi_device_info) : List USB_DEVICES → St → St
  | [], s => s
  | t :: ts, s => check_usb_loop env ldev ts (check_usb_body env ldev t s)

/-- Outer loop (lines 201-216): advances over the enumerated devices while
`r == WDI_SUCCESS`. -/
def ldev_loop (env : Env) (tbl : List USB_DEVICES) : List wdi_device_info → St → St
  | [], s => s
  | ldev :: rest, s =>
      if s.r = WDI_SUCCESS then ldev_loop env tbl rest (check_usb_loop env ldev tbl s)
      else s

/-- Lines 198-217: reset of the match flag, device enumeration and the match
loop over the table `tbl`. -/
def match_stage (env : Env) (tbl : List USB_DEVICES) (s : St) : St :=
  let s1 : St :=
    { s with matching_device_found := false, calls := s.calls ++ [Call.create_list] }
  if env.create_list.1 = WDI_SUCCESS then
    ldev_loop env tbl env.create_list.2 { s1 with r := WDI_SUCCESS }
  else s1

/-- Lines 219-223: the unconditional install when no device matched. -/
def fallback_stage (env : Env) (s : St) : St :=
  if s.matching_device_found then s else call_install_driver env Site.fallback s

/-- Lines 189-193: the optional certificate install. -/
def cert_stage (cfg : Config) (env : Env) (s : St) : St :=
  match cfg.cert_name with
  | some name =>
      { s with
        r := env.install_trusted_certificate
        calls := s.calls ++ [Call.install_trusted_certificate name] }
  | none => s

/-- Lines 183-225 of `main` over a known-device table `tbl`: the final
variables and the trace of external calls. -/
def main_with (tbl : List USB_DEVICES) (cfg : Config) (env : Env) : St :=
  let s0 : St :=
    { dev := dev_init, matching_device_found := false,
      r := env.sign_driver_inf, calls := [Call.sign_driver_inf dev_init] }
  if s0.r ≠ WDI_SUCCESS ∨ cfg.opt_extract ≠ 0 then s0
  else fallback_stage env (match_stage env tbl (cert_stage cfg env s0))

/-- The orchestrator `main` (lines 183-225) with the table `usb_devices`; the
value `main` returns is the field `r` of the result. -/
def main (cfg : Config) (env : Env) : St :=
  main_with usb_devices cfg env

/-- Descriptor after the inner loop has stored the vendor and product ID of
every entry of `ts` in it, one after the other (lines 203-204). -/
def set_ids (ts : List USB_DEVICES) (dev : wdi_device_info) : wdi_device_info :=
  ts.foldl (fun d t => { d with vid := t.vid, pid := t.pid }) dev

/-- The match test of the specification between an enumerated device `D` and
the table `tbl`, for the descriptor `dev`: some entry has the vendor and
product ID of `D`, and `D` has the sub-interface number and composite flag of
the descriptor. -/
def device_matches (tbl : List USB_DEVICES) (dev D : wdi_device_info) : Bool :=
  tbl.any (fun T => D.vid == T.vid && D.pid == T.pid)
    && D.mi == dev.mi && D.is_composite == dev.is_composite

/-- Descriptor the specification expects at the install call for the matching
device `D` and table entry `T`: hardware ID and device ID of `D`, vendor and
product ID of `T`, everything else as in `dev`. -/
def matched_descriptor (dev D : wdi_device_info) (T : USB_DEVICES) : wdi_device_info :=
  { dev with vid := T.vid, pid := T.pid,
             hardware_id := D.hardware_id, device_id := D.device_id }

/-- Install descriptors the specification expects from the match loop when
every install succeeds: one per enumerated device that matches, in
enumeration order. -/
def expected_installs (tbl : List USB_DEVICES) (dev : wdi_device_info) :
    List wdi_device_info → List wdi_device_info
  | [] => []
  | D :: rest =>
      if D.mi = dev.mi ∧ D.is_composite = dev.is_composite then
        match tbl.find? (fun T => D.vid == T.vid && D.pid == T.pid) with
        | some T => matched_descriptor dev D T :: expected_installs tbl dev rest
        | none => expected_installs tbl dev rest
      else expected_installs tbl dev rest

/-- The flattened (enumerated device, known entry) pairs of the
specification, device-major, then in table order. -/
def flat_pairs (tbl : List USB_DEVICES) :
    List wdi_device_info → List (wdi_device_info × USB_DEVICES)
  | [] => []
  | D :: rest => tbl.map (fun T => (D, T)) ++ flat_pairs tbl rest

/-- The single loop of the specification over a stream of (device, entry)
pairs, which ends at the first install failure. -/
def flat_loop (env : Env) : List (wdi_device_info × USB_DEVICES) → St → St
  | [], s => s
  | p :: ps, s =>
      if s.r = WDI_SUCCESS then flat_loop env ps (check_usb_body env p.1 p.2 s)
      else s

/-- Lines 198-217 with the flattened loop of the specification in place of
the nested loops. -/
def match_stage_flat (env : Env) (tbl : List USB_DEVICES) (s : St) : St :=
  let s1 : St :=
    { s with matching_device_found := false, calls := s.calls ++ [Call.create_list] }
  if env.create_list.1 = WDI_SUCCESS then
    flat_loop env (flat_pairs tbl env.create_list.2) { s1 with r := WDI_SUCCESS }
  else s1

/-- The orchestrator with the flattened loop of the specification. -/
def main_flat (cfg : Config) (env : Env) : St :=
  let s0 : St :=
    { dev := dev_init, matching_device_found := false,
      r := env.sign_driver_inf, calls := [Call.sign_driver_inf dev_init] }
  if s0.r ≠ WDI_SUCCESS ∨ cfg.opt_extract ≠ 0 then s0
  else fallback_stage env (match_stage_flat env usb_devices (cert_stage cfg env s0))

/-- What a run shows to the outside and to the fallback test: the trace, the
match flag and the status. -/
def observable (s : St) : List Call × Bool × Int :=
  (s.calls, s.matching_device_found, s.r)

/-! ## Concrete devices and environments used in the examples -/

/-- An attached xu1541 (first entry of the table). -/
def dev_xu1541 : wdi_device_info :=
  { vid := 0x0403, pid := 0xc632, is_composite := false, mi := 0,
    desc := some "xu1541", driver := none,
    device_id := some "id-a", hardware_id := some "hw-a" }

/-- An attached xum1541 (second entry of the table). -/
def dev_xum1541 : wdi_device_info :=
  { vid := 0x16d0, pid := 0x0504, is_composite := false, mi := 0,
    desc := some "xum1541", driver := none,
    device_id := some "id-b", hardware_id := some "hw-b" }

/-- An attached device that is not in the table. -/
def dev_other : wdi_device_info :=
  { vid := 0x046d, pid := 0xc077, is_composite := false, mi := 0,
    desc := some "mouse", driver := none,
    device_id := some "id-c", hardware_id := some "hw-c" }

/-- Configuration without `-x` and without `-c`. -/
def cfg_plain : Config := { opt_extract := 0, cert_name := none }

/-- Configuration with `-c cert`. -/
def cfg_cert : Config := { opt_extract := 0, cert_name := some "cert" }

/-- Configuration with `-x`. -/
def cfg_extract : Config := { opt_extract := 1, cert_name := some "cert" }

/-- Environment in which every primitive succeeds and the enumeration
returns `devs`. -/
def env_ok (devs : List wdi_device_info) : Env :=
  { sign_driver_inf := 0, install_trusted_certificate := 0,
    create_list := (0, devs), install_driver := fun _ _ => 0 }

/-- Environment in which the enumeration returns `devs` and the first call
of `wdi_install_driver` fails with status `-14`. -/
def env_first_install_fails (devs : List wdi_device_info) : Env :=
  { sign_driver_inf := 0, install_trusted_certificate := 0,
    create_list := (0, devs),
    install_driver := fun k _ => if k = 0 then -14 else 0 }

/-- Environment in which the enumeration itself fails with status `-3`. -/
def env_no_list : Env :=
  { sign_driver_inf := 0, install_trusted_certificate := 0,
    create_list := (-3, []), install_driver := fun _ _ => 0 }

/-- Environment in which the certificate install fails with status `-5`,
everything else succeeds and the enumeration returns `devs`. -/
def env_cert_fails (devs : List wdi_device_info) : Env :=
  { sign_driver_inf := 0, install_trusted_certificate := -5,
    create_list := (0, devs), install_driver := fun _ _ => 0 }

/-- The state in which the outer loop of `main` starts (line 201), when the
enumeration succeeded. -/
def loop_start (cfg : Config) (env : Env) : St :=
  { dev := dev_init, matching_device_found := false, r := WDI_SUCCESS,
    calls := (cert_stage cfg env
      { dev := dev_init, matching_device_found := false,
        r := env.sign_driver_inf, calls := [Call.sign_driver_inf dev_init] }).calls
      ++ [Call.create_list] }

/-! ## Predicates on states used as loop invariants -/

/-- Every install descriptor of the trace, and the working descriptor, carry
a (vid, pid) pair of the table. -/
def known_pairs (tbl : List USB_DEVICES) (s : St) : Prop :=
  (⟨s.dev.vid, s.dev.pid⟩ : USB_DEVICES) ∈ tbl
    ∧ ∀ d ∈ installs s.calls, (⟨d.vid, d.pid⟩ : USB_DEVICES) ∈ tbl

/-- Once the match flag is set, `r` is the status of the last install call
of the trace. -/
def r_is_last_status (env : Env) (s : St) : Prop :=
  s.matching_device_found = true →
    ∃ d, (installs s.calls).getLast? = some d
      ∧ s.r = env.install_driver ((installs s.calls).length - 1) d

/-- While the match flag is clear, no install call has been issued and `r`
is still the `WDI_SUCCESS` stored at line 200. -/
def clear_flag_means_untouched (s : St) : Prop :=
  s.matching_device_found = false → s.r = WDI_SUCCESS ∧ installs s.calls = []

/-- Every install call of the trace but the last one returned success, and
if `r` is success the last one did too. -/
def failures_are_last (env : Env) (s : St) : Prop :=
  (∀ k d, (installs s.calls)[k]? = some d → k + 1 < (installs s.calls).length →
      env.install_driver k d = WDI_SUCCESS)
    ∧ (s.r = WDI_SUCCESS → ∀ k d, (installs s.calls)[k]? = some d →
        env.install_driver k d = WDI_SUCCESS)

/-- Two states agree on the variables of `main` and on the install calls of
their traces (they may differ in the other calls recorded). -/
def agree_on_installs (s s2 : St) : Prop :=
  s.dev = s2.dev ∧ s.matching_device_found = s2.matching_device_found ∧ s.r = s2.r
    ∧ installs s.calls = installs s2.calls
    ∧ ∀ site, installs_at site s.calls = installs_at site s2.calls

/-! ## Basic facts about traces -/

theorem installs_append (a b : List Call) :
    installs (a ++ b) = installs a ++ installs b := by
  induction a with
  | nil => rfl
  | cons c cs ih => cases c <;> simp [installs, ih]

theorem installs_at_append (site : Site) (a b : List Call) :
    installs_at site (a ++ b) = installs_at site a ++ installs_at site b := by
  induction a with
  | nil => rfl
  | cons c cs ih =>
    cases c <;> simp [installs_at, ih]
    split <;> simp

theorem set_ids_cons (t : USB_DEVICES) (ts : List USB_DEVICES) (d : wdi_device_info) :
    set_ids (t :: ts) d = set_ids ts { d with vid := t.vid, pid := t.pid } := rfl

theorem set_ids_frame (ts : List USB_DEVICES) (d : wdi_device_info) :
    (set_ids ts d).mi = d.mi ∧ (set_ids ts d).is_composite = d.is_composite
      ∧ (set_ids ts d).desc = d.desc ∧ (set_ids ts d).driver = d.driver
      ∧ (set_ids ts d).device_id = d.device_id
      ∧ (set_ids ts d).hardware_id = d.hardware_id := by
  induction ts generalizing d with
  | nil => simp [set_ids]
  | cons t ts ih => rw [set_ids_cons]; simpa using ih _

/-! ## The inner loop over a table without repeated entries -/

/-- The inner loop when no entry of `ts` passes the test of line 205: only
the vendor and product ID of the descriptor change. -/
theorem check_usb_loop_no_match (env : Env) (D : wdi_device_info)
    (ts : List USB_DEVICES) (s : St)
    (h : (⟨D.vid, D.pid⟩ : USB_DEVICES) ∉ ts ∨ D.mi ≠ s.dev.mi
          ∨ D.is_composite ≠ s.dev.is_composite) :
    check_usb_loop env D ts s = { s with dev := set_ids ts s.dev } := by
  induction ts generalizing s with
  | nil => simp [check_usb_loop, set_ids]
  | cons t ts ih =>
    have hne : ids_equal D { s.dev with vid := t.vid, pid := t.pid } = false := by
      rcases h with h | h | h
      · have : t ≠ ⟨D.vid, D.pid⟩ := fun e => h (by simp [e])
        cases t with
        | mk v p =>
          simp only [ids_equal, Bool.and_eq_false_iff, beq_eq_false_iff_ne]
          by_cases hv : D.vid = v
          · by_cases hp : D.pid = p
            · exact absurd (by simp [hv, hp]) this
            · exact Or.inl (Or.inl (Or.inr hp))
          · exact Or.inl (Or.inl (Or.inl hv))
      · simp [ids_equal, h]
      · simp [ids_equal, h]
    have hstep : check_usb_body env D t s
        = { s with dev := { s.dev with vid := t.vid, pid := t.pid } } := by
      simp [check_usb_body, hne]
    rw [check_usb_loop, hstep, ih]
    · rw [set_ids_cons]
    · rcases h with h | h | h
      · exact Or.inl (fun hm => h (List.mem_cons_of_mem _ hm))
      · exact Or.inr (Or.inl h)
      · exact Or.inr (Or.inr h)

/-- The inner loop when the entry with the vendor and product ID of `D` is
in `ts`, `ts` has no repeated entry, and `D` has the descriptor's `mi` and
composite flag: exactly one install call, for that entry. -/
theorem check_usb_loop_match (env : Env) (D : wdi_device_info)
    (ts : List USB_DEVICES) (s : St) (hnd : ts.Nodup)
    (hmem : (⟨D.vid, D.pid⟩ : USB_DEVICES) ∈ ts)
    (hmi : D.mi = s.dev.mi) (hc : D.is_composite = s.dev.is_composite) :
    check_usb_loop env D ts s =
      { dev := set_ids ts { s.dev with hardware_id := D.hardware_id,
                                       device_id := D.device_id }
        matching_device_found := true
        r := env.install_driver (installs s.calls).length
              (matched_descriptor s.dev D ⟨D.vid, D.pid⟩)
        calls := s.calls ++ [Call.install_driver Site.match_loop
              (matched_descriptor s.dev D ⟨D.vid, D.pid⟩)] } := by
  induction ts generalizing s with
  | nil => simp at hmem
  | cons t ts ih =>
    rw [List.nodup_cons] at hnd
    by_cases ht : t = ⟨D.vid, D.pid⟩
    · subst ht
      have heq : ids_equal D { s.dev with vid := D.vid, pid := D.pid } = true := by
        simp [ids_equal, hmi, hc]
      rw [check_usb_loop]
      have hstep : check_usb_body env D ⟨D.vid, D.pid⟩ s =
          { dev := matched_descriptor s.dev D ⟨D.vid, D.pid⟩
            matching_device_found := true
            r := env.install_driver (installs s.calls).length
                  (matched_descriptor s.dev D ⟨D.vid, D.pid⟩)
            calls := s.calls ++ [Call.install_driver Site.match_loop
                  (matched_descriptor s.dev D ⟨D.vid, D.pid⟩)] } := by
        simp [check_usb_body, heq, call_install_driver, matched_descriptor]
      rw [hstep, check_usb_loop_no_match env D ts _ (Or.inl hnd.1)]
      simp [set_ids_cons, matched_descriptor]
    · have hmem2 : (⟨D.vid, D.pid⟩ : USB_DEVICES) ∈ ts := by
        rcases List.mem_cons.mp hmem with h | h
        · exact absurd h.symm ht
        · exact h
      have hne : ids_equal D { s.dev with vid := t.vid, pid := t.pid } = false := by
        cases t with
        | mk v p =>
          simp only [ids_equal, Bool.and_eq_false_iff, beq_eq_false_iff_ne]
          by_cases hv : D.vid = v
          · by_cases hp : D.pid = p
            · exact absurd (by simp [hv, hp]) ht
            · exact Or.inl (Or.inl (Or.inr hp))
          · exact Or.inl (Or.inl (Or.inl hv))
      have hstep : check_usb_body env D t s
          = { s with dev := { s.dev with vid := t.vid, pid := t.pid } } := by
        simp [check_usb_body, hne]
      rw [check_usb_loop, hstep, ih _ hnd.2 hmem2 (by simpa using hmi) (by simpa using hc)]
      simp [set_ids_cons, matched_descriptor]

theorem device_matches_iff (tbl : List USB_DEVICES) (dev D : wdi_device_info) :
    device_matches tbl dev D = true ↔
      (⟨D.vid, D.pid⟩ : USB_DEVICES) ∈ tbl ∧ D.mi = dev.mi
        ∧ D.is_composite = dev.is_composite := by
  have hany : (tbl.any (fun T => D.vid == T.vid && D.pid == T.pid)) = true
      ↔ (⟨D.vid, D.pid⟩ : USB_DEVICES) ∈ tbl := by
    rw [List.any_eq_true]
    constructor
    · rintro ⟨T, hT, h⟩
      cases T with
      | mk v p =>
        simp only [Bool.and_eq_true, beq_iff_eq] at h
        rw [h.1, h.2]; exact hT
    · intro h
      exact ⟨_, h, by simp⟩
  simp only [device_matches, Bool.and_eq_true, beq_iff_eq, hany, and_assoc]

/-- One pass of the inner loop over a table without repeated entries, by
whether the device matches. -/
theorem check_usb_loop_cases (env : Env) (tbl : List USB_DEVICES) (hnd : tbl.Nodup)
    (D : wdi_device_info) (s : St) :
    check_usb_loop env D tbl s =
      if device_matches tbl s.dev D then
        { dev := set_ids tbl { s.dev with hardware_id := D.hardware_id,
                                          device_id := D.device_id }
          matching_device_found := true
          r := env.install_driver (installs s.calls).length
                (matched_descriptor s.dev D ⟨D.vid, D.pid⟩)
          calls := s.calls ++ [Call.install_driver Site.match_loop
                (matched_descriptor s.dev D ⟨D.vid, D.pid⟩)] }
      else { s with dev := set_ids tbl s.dev } := by
  by_cases h : device_matches tbl s.dev D = true
  · rw [if_pos h]
    rw [device_matches_iff] at h
    exact check_usb_loop_match env D tbl s hnd h.1 h.2.1 h.2.2
  · rw [if_neg h]
    rw [device_matches_iff] at h
    apply check_usb_loop_no_match
    by_contra hcon
    push_neg at hcon
    exact h ⟨hcon.1, hcon.2.1, hcon.2.2⟩

theorem usb_devices_nodup : usb_devices.Nodup := by decide

/-! ## Stage 1 and the fallback on an empty or failed enumeration -/

theorem installs_snoc_install (cs : List Call) (site : Site) (d : wdi_device_info) :
    installs (cs ++ [Call.install_driver site d]) = installs cs ++ [d] := by
  rw [installs_append]; rfl

theorem cert_stage_frame (cfg : Config) (env : Env) (s : St) :
    (cert_stage cfg env s).dev = s.dev
      ∧ (cert_stage cfg env s).matching_device_found = s.matching_device_found
      ∧ installs (cert_stage cfg env s).calls = installs s.calls := by
  unfold cert_stage
  cases cfg.cert_name <;> simp [installs_append, installs]

theorem main_stage1_exit_calls (cfg : Config) (env : Env)
    (h : env.sign_driver_inf ≠ WDI_SUCCESS ∨ cfg.opt_extract ≠ 0) :
    (main cfg env).calls = [Call.sign_driver_inf dev_init] := by
  simp only [main, main_with]
  rw [if_pos h]

/-- C1: if `wdi_sign_driver_inf` does not return success, or extraction-only
mode is set, `main` returns the status of that call, and the trace of external
calls is the single prepare call (no certificate install, no enumeration, no
driver install). -/
theorem main_stage1_early_exit (cfg : Config) (env : Env)
    (h : env.sign_driver_inf ≠ WDI_SUCCESS ∨ cfg.opt_extract ≠ 0) :
    (main cfg env).r = env.sign_driver_inf
      ∧ (main cfg env).calls = [Call.sign_driver_inf dev_init] := by
  simp only [main, main_with]
  rw [if_pos h]
  exact ⟨rfl, rfl⟩

theorem main_stage1_early_exit_witness :
    (cfg_extract.opt_extract ≠ 0)
      ∧ (main cfg_extract (env_ok [dev_xu1541])).r = 0
      ∧ (main cfg_extract (env_ok [dev_xu1541])).calls = [Call.sign_driver_inf dev_init] :=
  ⟨by decide, main_stage1_early_exit cfg_extract (env_ok [dev_xu1541]) (Or.inr (by decide))⟩

theorem ldev_loop_stop (env : Env) (tbl : List USB_DEVICES)
    (devs : List wdi_device_info) (s : St) (h : s.r ≠ WDI_SUCCESS) :
    ldev_loop env tbl devs s = s := by
  cases devs with
  | nil => rfl
  | cons d ds => simp [ldev_loop, h]

theorem ldev_loop_append (env : Env) (tbl : List USB_DEVICES)
    (pre rest : List wdi_device_info) (s : St) :
    ldev_loop env tbl (pre ++ rest) s = ldev_loop env tbl rest (ldev_loop env tbl pre s) := by
  induction pre generalizing s with
  | nil => rfl
  | cons d ds ih =>
    by_cases h : s.r = WDI_SUCCESS
    · simp [ldev_loop, h, ih]
    · simp [ldev_loop, h, ldev_loop_stop env tbl rest s h]

/-- The run after a failed or empty enumeration. -/
theorem main_after_failed_or_empty_enumeration (cfg : Config) (env : Env)
    (hp : env.sign_driver_inf = WDI_SUCCESS) (hx : cfg.opt_extract = 0)
    (he : env.create_list.1 ≠ WDI_SUCCESS ∨ env.create_list.2 = []) :
    installs (main cfg env).calls = [dev_init]
      ∧ installs_at Site.fallback (main cfg env).calls = [dev_init]
      ∧ installs_at Site.match_loop (main cfg env).calls = []
      ∧ (main cfg env).r = env.install_driver 0 dev_init
      ∧ dev_init.vid = 0x16d0 ∧ dev_init.pid = 0x0504
      ∧ dev_init.is_composite = false ∧ dev_init.mi = 0
      ∧ dev_init.hardware_id = none ∧ dev_init.device_id = none := by
  have hstage : ∀ s : St, match_stage env usb_devices s =
      { s with matching_device_found := false
               calls := s.calls ++ [Call.create_list]
               r := if env.create_list.1 = WDI_SUCCESS then WDI_SUCCESS else s.r } := by
    intro s
    unfold match_stage
    by_cases h1 : env.create_list.1 = WDI_SUCCESS
    · have h2 : env.create_list.2 = [] := by
        rcases he with h | h
        · exact absurd h1 h
        · exact h
      simp [h1, h2, ldev_loop]
    · simp [h1]
  simp only [main, main_with]
  rw [if_neg (by simp [hp, hx]), hstage]
  cases hc : cfg.cert_name <;>
    simp [cert_stage, hc, fallback_stage, call_install_driver, installs_append, installs,
      installs_at_append, installs_at, dev_init, VID, PID]

/-- C4: when preparation succeeded and extraction-only is off, and the
enumeration fails or returns the empty list, exactly one driver-install call
is issued (the fallback one), its descriptor is the unmodified default
descriptor (vid 0x16d0, pid 0x0504, not composite, mi 0, hardware ID and
device ID unset), and `main` returns the status of that call. -/
theorem main_fallback_on_empty_or_failed_enumeration (cfg : Config) (env : Env)
    (hp : env.sign_driver_inf = WDI_SUCCESS) (hx : cfg.opt_extract = 0)
    (he : env.create_list.1 ≠ WDI_SUCCESS ∨ env.create_list.2 = []) :
    installs (main cfg env).calls = [dev_init]
      ∧ installs_at Site.fallback (main cfg env).calls = [dev_init]
      ∧ installs_at Site.match_loop (main cfg env).calls = []
      ∧ (main cfg env).r = env.install_driver 0 dev_init
      ∧ dev_init.vid = 0x16d0 ∧ dev_init.pid = 0x0504
      ∧ dev_init.is_composite = false ∧ dev_init.mi = 0
      ∧ dev_init.hardware_id = none ∧ dev_init.device_id = none :=
  main_after_failed_or_empty_enumeration cfg env hp hx he

theorem main_fallback_on_empty_or_failed_enumeration_witness :
    env_no_list.sign_driver_inf = WDI_SUCCESS
      ∧ cfg_cert.opt_extract = 0
      ∧ env_no_list.create_list.1 ≠ WDI_SUCCESS
      ∧ installs (main cfg_cert env_no_list).calls = [dev_init]
      ∧ installs_at Site.fallback (main cfg_cert env_no_list).calls = [dev_init]
      ∧ installs_at Site.match_loop (main cfg_cert env_no_list).calls = []
      ∧ (main cfg_cert env_no_list).r = env_no_list.install_driver 0 dev_init
      ∧ dev_init.vid = 0x16d0 ∧ dev_init.pid = 0x0504
      ∧ dev_init.is_composite = false ∧ dev_init.mi = 0
      ∧ dev_init.hardware_id = none ∧ dev_init.device_id = none :=
  ⟨rfl, rfl, by decide,
    main_fallback_on_empty_or_failed_enumeration cfg_cert env_no_list rfl rfl
      (Or.inl (by decide))⟩

/-- C5, the code at an enumeration that holds one device which is not in the
table (preparation, enumeration and every install succeed, no `-x`): the
single install call is the fallback one and carries the vendor and product ID
of the last table entry (0x03eb, 0x2ffb), not the configured 0x16d0, 0x0504;
after an empty enumeration the same call carries 0x16d0, 0x0504. -/
theorem main_fallback_after_unmatched_device :
    device_matches usb_devices dev_init dev_other = false
      ∧ installs (main cfg_plain (env_ok [dev_other])).calls
          = [{ dev_init with vid := 0x03eb, pid := 0x2ffb }]
      ∧ installs_at Site.fallback (main cfg_plain (env_ok [dev_other])).calls
          = [{ dev_init with vid := 0x03eb, pid := 0x2ffb }]
      ∧ (installs (main cfg_plain (env_ok [dev_other])).calls).map
            (fun d => (d.vid, d.pid)) ≠ [(0x16d0, 0x0504)]
      ∧ (installs (main cfg_plain (env_ok [])).calls).map
            (fun d => (d.vid, d.pid)) = [(0x16d0, 0x0504)] := by
  decide

/-! ## Invariants of the match loop -/

/-- The body of the inner loop as one conditional. -/
theorem check_usb_body_eq (env : Env) (D : wdi_device_info) (t : USB_DEVICES) (s : St) :
    check_usb_body env D t s =
      if ids_equal D { s.dev with vid := t.vid, pid := t.pid } = true then
        { dev := matched_descriptor s.dev D t
          matching_device_found := true
          r := env.install_driver (installs s.calls).length (matched_descriptor s.dev D t)
          calls := s.calls ++ [Call.install_driver Site.match_loop
                    (matched_descriptor s.dev D t)] }
      else { s with dev := { s.dev with vid := t.vid, pid := t.pid } } := by
  by_cases h : ids_equal D { s.dev with vid := t.vid, pid := t.pid } = true
  · simp [check_usb_body, h, call_install_driver, matched_descriptor]
  · simp [check_usb_body, h]

theorem check_usb_body_known_pairs (env : Env) (tbl : List USB_DEVICES)
    (D : wdi_device_info) (t : USB_DEVICES) (ht : t ∈ tbl) (s : St)
    (h : known_pairs tbl s) : known_pairs tbl (check_usb_body env D t s) := by
  rw [check_usb_body_eq]
  split
  · refine ⟨by simpa [matched_descriptor] using ht, ?_⟩
    intro d hd
    simp only [installs_snoc_install, List.mem_append, List.mem_singleton] at hd
    rcases hd with hd | hd
    · exact h.2 d hd
    · subst hd; simpa [matched_descriptor] using ht
  · exact ⟨by simpa using ht, h.2⟩

theorem check_usb_loop_known_pairs (env : Env) (tbl : List USB_DEVICES)
    (D : wdi_device_info) (ts : List USB_DEVICES) (hts : ∀ t ∈ ts, t ∈ tbl) (s : St)
    (h : known_pairs tbl s) : known_pairs tbl (check_usb_loop env D ts s) := by
  induction ts generalizing s with
  | nil => exact h
  | cons t ts ih =>
    rw [check_usb_loop]
    exact ih (fun u hu => hts u (List.mem_cons_of_mem _ hu)) _
      (check_usb_body_known_pairs env tbl D t (hts t (List.mem_cons_self _ _)) s h)

theorem ldev_loop_known_pairs (env : Env) (tbl : List USB_DEVICES)
    (devs : List wdi_device_info) (s : St)
    (h : known_pairs tbl s) : known_pairs tbl (ldev_loop env tbl devs s) := by
  induction devs generalizing s with
  | nil => exact h
  | cons D ds ih =>
    rw [ldev_loop]
    split
    · exact ih _ (check_usb_loop_known_pairs env tbl D tbl (fun _ ht => ht) s h)
    · exact h

/-- C8: in every run, every driver-install call (from the match loop or the
fallback) is issued with a descriptor whose (vid, pid) pair is an entry of
the six-entry known-device table. -/
theorem main_installs_only_known_pairs (cfg : Config) (env : Env) :
    usb_devices.length = 6
      ∧ ∀ site d, Call.install_driver site d ∈ (main cfg env).calls →
          (⟨d.vid, d.pid⟩ : USB_DEVICES) ∈ usb_devices := by
  refine ⟨rfl, ?_⟩
  have hmem : ∀ (cs : List Call) site d,
      Call.install_driver site d ∈ cs → d ∈ installs cs := by
    intro cs site d
    induction cs with
    | nil => simp
    | cons c cs ih =>
      intro hc
      cases c <;> simp [installs] at hc ⊢ <;> tauto
  have hinv : known_pairs usb_devices (main cfg env) := by
    simp only [main, main_with]
    split
    · exact ⟨by simp [dev_init, VID, PID, usb_devices], by simp [installs]⟩
    · have h0 : known_pairs usb_devices
          (cert_stage cfg env
            { dev := dev_init, matching_device_found := false,
              r := env.sign_driver_inf, calls := [Call.sign_driver_inf dev_init] }) := by
        obtain ⟨hd, _, hi⟩ := cert_stage_frame cfg env
            { dev := dev_init, matching_device_found := false,
              r := env.sign_driver_inf, calls := [Call.sign_driver_inf dev_init] }
        refine ⟨by rw [hd]; simp [dev_init, VID, PID, usb_devices], ?_⟩
        rw [hi]; simp [installs]
      have h1 : ∀ s, known_pairs usb_devices s →
          known_pairs usb_devices (match_stage env usb_devices s) := by
        intro s hs
        have hs1 : ∀ r, known_pairs usb_devices
            { s with matching_device_found := false,
                     calls := s.calls ++ [Call.create_list], r := r } := by
          intro r
          refine ⟨hs.1, ?_⟩
          simpa [installs_append, installs] using hs.2
        unfold match_stage
        split
        · exact ldev_loop_known_pairs env usb_devices _ _ (hs1 _)
        · exact hs1 _
      have h2 : ∀ s, known_pairs usb_devices s →
          known_pairs usb_devices (fallback_stage env s) := by
        intro s hs
        unfold fallback_stage
        split
        · exact hs
        · refine ⟨hs.1, ?_⟩
          intro d hd
          simp only [call_install_driver, installs_snoc_install, List.mem_append,
            List.mem_singleton] at hd
          rcases hd with hd | hd
          · exact hs.2 d hd
          · subst hd; exact hs.1
      exact h2 _ (h1 _ h0)
  intro site d hd
  exact hinv.2 d (hmem _ site d hd)

theorem check_usb_body_r_is_last_status (env : Env) (D : wdi_device_info)
    (t : USB_DEVICES) (s : St) (h : r_is_last_status env s) :
    r_is_last_status env (check_usb_body env D t s) := by
  rw [check_usb_body_eq]
  split
  · intro _
    exact ⟨matched_descriptor s.dev D t, by simp [installs_snoc_install],
      by simp [installs_snoc_install]⟩
  · exact h

theorem check_usb_loop_r_is_last_status (env : Env) (D : wdi_device_info)
    (ts : List USB_DEVICES) (s : St) (h : r_is_last_status env s) :
    r_is_last_status env (check_usb_loop env D ts s) := by
  induction ts generalizing s with
  | nil => exact h
  | cons t ts ih =>
    rw [check_usb_loop]
    exact ih _ (check_usb_body_r_is_last_status env D t s h)

theorem ldev_loop_r_is_last_status (env : Env) (tbl : List USB_DEVICES)
    (devs : List wdi_device_info) (s : St) (h : r_is_last_status env s) :
    r_is_last_status env (ldev_loop env tbl devs s) := by
  induction devs generalizing s with
  | nil => exact h
  | cons D ds ih =>
    rw [ldev_loop]
    split
    · exact ih _ (check_usb_loop_r_is_last_status env D tbl s h)
    · exact h

theorem match_stage_r_is_last_status (env : Env) (tbl : List USB_DEVICES) (s : St) :
    r_is_last_status env (match_stage env tbl s) := by
  unfold match_stage
  split
  · apply ldev_loop_r_is_last_status
    intro h; simp at h
  · intro h; simp at h

/-- Status of the last install call of a trace under `env`. -/
theorem fallback_stage_last_status (env : Env) (s : St) (h : r_is_last_status env s) :
    ∃ d, (installs (fallback_stage env s).calls).getLast? = some d
      ∧ (fallback_stage env s).r
          = env.install_driver ((installs (fallback_stage env s).calls).length - 1) d := by
  unfold fallback_stage
  split
  · next hf => exact h hf
  · exact ⟨s.dev, by simp [call_install_driver, installs_snoc_install],
      by simp [call_install_driver, installs_snoc_install]⟩

/-- C6: when preparation succeeded and extraction-only is off, at least one
driver-install call is issued, and the status `main` returns is the status of
the last driver-install call of the run (from the match loop or the
fallback); it is success exactly when that call returned success. -/
theorem main_returns_last_install_status (cfg : Config) (env : Env)
    (hp : env.sign_driver_inf = WDI_SUCCESS) (hx : cfg.opt_extract = 0) :
    ∃ d, (installs (main cfg env).calls).getLast? = some d
      ∧ 1 ≤ (installs (main cfg env).calls).length
      ∧ (main cfg env).r
          = env.install_driver ((installs (main cfg env).calls).length - 1) d
      ∧ ((main cfg env).r = WDI_SUCCESS ↔
          env.install_driver ((installs (main cfg env).calls).length - 1) d
            = WDI_SUCCESS) := by
  simp only [main, main_with]
  rw [if_neg (by simp [hp, hx])]
  obtain ⟨d, hd, hr⟩ := fallback_stage_last_status env _
    (match_stage_r_is_last_status env usb_devices
      (cert_stage cfg env
        { dev := dev_init, matching_device_found := false,
          r := env.sign_driver_inf, calls := [Call.sign_driver_inf dev_init] }))
  refine ⟨d, hd, ?_, hr, by rw [hr]⟩
  cases hl : installs (fallback_stage env (match_stage env usb_devices
      (cert_stage cfg env
        { dev := dev_init, matching_device_found := false,
          r := env.sign_driver_inf, calls := [Call.sign_driver_inf dev_init] }))).calls with
  | nil => rw [hl] at hd; simp at hd
  | cons a l => simp

theorem main_returns_last_install_status_witness :
    (env_first_install_fails [dev_xu1541, dev_xum1541]).sign_driver_inf = WDI_SUCCESS
      ∧ cfg_cert.opt_extract = 0
      ∧ (main cfg_cert (env_first_install_fails [dev_xu1541, dev_xum1541])).r = -14
      ∧ ∃ d, (installs (main cfg_cert
                (env_first_install_fails [dev_xu1541, dev_xum1541])).calls).getLast? = some d
          ∧ 1 ≤ (installs (main cfg_cert
                (env_first_install_fails [dev_xu1541, dev_xum1541])).calls).length
          ∧ (main cfg_cert (env_first_install_fails [dev_xu1541, dev_xum1541])).r
              = (env_first_install_fails [dev_xu1541, dev_xum1541]).install_driver
                  ((installs (main cfg_cert
                    (env_first_install_fails [dev_xu1541, dev_xum1541])).calls).length - 1) d
          ∧ ((main cfg_cert (env_first_install_fails [dev_xu1541, dev_xum1541])).r
                = WDI_SUCCESS ↔
              (env_first_install_fails [dev_xu1541, dev_xum1541]).install_driver
                  ((installs (main cfg_cert
                    (env_first_install_fails [dev_xu1541, dev_xum1541])).calls).length - 1) d
                = WDI_SUCCESS) :=
  ⟨rfl, rfl, by decide,
    main_returns_last_install_status cfg_cert
      (env_first_install_fails [dev_xu1541, dev_xum1541]) rfl rfl⟩

theorem main_installs_only_known_pairs_witness :
    Call.install_driver Site.fallback { dev_init with vid := 0x03eb, pid := 0x2ffb }
        ∈ (main cfg_cert (env_ok [dev_other])).calls
      ∧ (⟨0x03eb, 0x2ffb⟩ : USB_DEVICES) ∈ usb_devices :=
  ⟨by decide,
   (main_installs_only_known_pairs cfg_cert (env_ok [dev_other])).2 Site.fallback
      { dev_init with vid := 0x03eb, pid := 0x2ffb } (by decide)⟩

/-! ## The outer loop over a table without repeated entries -/

theorem device_matches_congr (tbl : List USB_DEVICES) (dev dev2 D : wdi_device_info)
    (hmi : dev2.mi = dev.mi) (hc : dev2.is_composite = dev.is_composite) :
    device_matches tbl dev2 D = device_matches tbl dev D := by
  simp [device_matches, hmi, hc]

/-- One iteration of the outer loop, by whether the device matches. -/
theorem ldev_loop_cons (env : Env) (tbl : List USB_DEVICES) (hnd : tbl.Nodup)
    (D : wdi_device_info) (ds : List wdi_device_info) (s : St)
    (hr : s.r = WDI_SUCCESS) :
    ldev_loop env tbl (D :: ds) s =
      if device_matches tbl s.dev D then
        ldev_loop env tbl ds
          { dev := set_ids tbl { s.dev with hardware_id := D.hardware_id,
                                            device_id := D.device_id }
            matching_device_found := true
            r := env.install_driver (installs s.calls).length
                  (matched_descriptor s.dev D ⟨D.vid, D.pid⟩)
            calls := s.calls ++ [Call.install_driver Site.match_loop
                  (matched_descriptor s.dev D ⟨D.vid, D.pid⟩)] }
      else ldev_loop env tbl ds { s with dev := set_ids tbl s.dev } := by
  rw [ldev_loop, if_pos hr, check_usb_loop_cases env tbl hnd]
  split <;> rfl

theorem check_usb_body_flag_mono (env : Env) (D : wdi_device_info) (t : USB_DEVICES)
    (s : St) (h : s.matching_device_found = true) :
    (check_usb_body env D t s).matching_device_found = true := by
  rw [check_usb_body_eq]
  split
  · rfl
  · exact h

theorem check_usb_loop_flag_mono (env : Env) (D : wdi_device_info) (ts : List USB_DEVICES)
    (s : St) (h : s.matching_device_found = true) :
    (check_usb_loop env D ts s).matching_device_found = true := by
  induction ts generalizing s with
  | nil => exact h
  | cons t ts ih =>
    rw [check_usb_loop]
    exact ih _ (check_usb_body_flag_mono env D t s h)

theorem ldev_loop_flag_mono (env : Env) (tbl : List USB_DEVICES)
    (devs : List wdi_device_info) (s : St) (h : s.matching_device_found = true) :
    (ldev_loop env tbl devs s).matching_device_found = true := by
  induction devs generalizing s with
  | nil => exact h
  | cons D ds ih =>
    rw [ldev_loop]
    split
    · exact ih _ (check_usb_loop_flag_mono env D tbl s h)
    · exact h

/-- The match flag after the outer loop: set exactly when it was set before
or some enumerated device matches. -/
theorem ldev_loop_flag (env : Env) (tbl : List USB_DEVICES) (hnd : tbl.Nodup)
    (devs : List wdi_device_info) (s : St) (hr : s.r = WDI_SUCCESS) :
    (ldev_loop env tbl devs s).matching_device_found
      = (s.matching_device_found || devs.any (device_matches tbl s.dev)) := by
  induction devs generalizing s with
  | nil => simp [ldev_loop]
  | cons D ds ih =>
    rw [ldev_loop_cons env tbl hnd D ds s hr]
    by_cases hm : device_matches tbl s.dev D = true
    · rw [if_pos hm, ldev_loop_flag_mono _ _ _ _ rfl]
      simp [hm]
    · rw [if_neg hm, ih { s with dev := set_ids tbl s.dev } hr]
      have hcongr : device_matches tbl (set_ids tbl s.dev) = device_matches tbl s.dev := by
        funext E
        exact device_matches_congr tbl s.dev _ E (set_ids_frame tbl s.dev).1
          (set_ids_frame tbl s.dev).2.1
      simp [hm, hcongr]

theorem check_usb_body_untouched (env : Env) (D : wdi_device_info) (t : USB_DEVICES)
    (s : St) (h : clear_flag_means_untouched s) :
    clear_flag_means_untouched (check_usb_body env D t s) := by
  rw [check_usb_body_eq]
  split
  · intro hf; simp at hf
  · exact h

theorem check_usb_loop_untouched (env : Env) (D : wdi_device_info) (ts : List USB_DEVICES)
    (s : St) (h : clear_flag_means_untouched s) :
    clear_flag_means_untouched (check_usb_loop env D ts s) := by
  induction ts generalizing s with
  | nil => exact h
  | cons t ts ih =>
    rw [check_usb_loop]
    exact ih _ (check_usb_body_untouched env D t s h)

theorem ldev_loop_untouched (env : Env) (tbl : List USB_DEVICES)
    (devs : List wdi_device_info) (s : St) (h : clear_flag_means_untouched s) :
    clear_flag_means_untouched (ldev_loop env tbl devs s) := by
  induction devs generalizing s with
  | nil => exact h
  | cons D ds ih =>
    rw [ldev_loop]
    split
    · exact ih _ (check_usb_loop_untouched env D tbl s h)
    · exact h

theorem check_usb_body_no_fallback_call (env : Env) (D : wdi_device_info) (t : USB_DEVICES)
    (s : St) :
    installs_at Site.fallback (check_usb_body env D t s).calls
      = installs_at Site.fallback s.calls := by
  rw [check_usb_body_eq]
  split
  · simp [installs_at_append, installs_at]
  · rfl

theorem check_usb_loop_no_fallback_call (env : Env) (D : wdi_device_info)
    (ts : List USB_DEVICES) (s : St) :
    installs_at Site.fallback (check_usb_loop env D ts s).calls
      = installs_at Site.fallback s.calls := by
  induction ts generalizing s with
  | nil => rfl
  | cons t ts ih =>
    rw [check_usb_loop, ih, check_usb_body_no_fallback_call]

theorem ldev_loop_no_fallback_call (env : Env) (tbl : List USB_DEVICES)
    (devs : List wdi_device_info) (s : St) :
    installs_at Site.fallback (ldev_loop env tbl devs s).calls
      = installs_at Site.fallback s.calls := by
  induction devs generalizing s with
  | nil => rfl
  | cons D ds ih =>
    rw [ldev_loop]
    split
    · rw [ih, check_usb_loop_no_fallback_call]
    · rfl

/-- The state in which `main` enters the match stage. -/
theorem main_eq (cfg : Config) (env : Env)
    (hp : env.sign_driver_inf = WDI_SUCCESS) (hx : cfg.opt_extract = 0) :
    main cfg env = fallback_stage env (match_stage env usb_devices
      (cert_stage cfg env
        { dev := dev_init, matching_device_found := false,
          r := env.sign_driver_inf, calls := [Call.sign_driver_inf dev_init] })) := by
  simp only [main, main_with]
  rw [if_neg (by simp [hp, hx])]

theorem installs_at_sub (site : Site) (cs : List Call) (h : installs cs = []) :
    installs_at site cs = [] := by
  induction cs with
  | nil => rfl
  | cons c cs ih => cases c <;> simp_all [installs, installs_at]

/-- What the match stage leaves behind, whatever state it starts from with an
install-free trace. -/
theorem match_stage_summary (env : Env) (s : St) (hd : s.dev = dev_init)
    (hi : installs s.calls = []) :
    (match_stage env usb_devices s).matching_device_found
        = (decide (env.create_list.1 = WDI_SUCCESS)
            && env.create_list.2.any (device_matches usb_devices dev_init))
      ∧ installs_at Site.fallback (match_stage env usb_devices s).calls = []
      ∧ ((match_stage env usb_devices s).matching_device_found = false →
          installs (match_stage env usb_devices s).calls = []) := by
  unfold match_stage
  by_cases he : env.create_list.1 = WDI_SUCCESS
  · simp only [if_pos he]
    refine ⟨?_, ?_, ?_⟩
    · rw [ldev_loop_flag env usb_devices usb_devices_nodup _ _ rfl]
      simp [he, hd]
    · rw [ldev_loop_no_fallback_call]
      simp [installs_at_append, installs_at, installs_at_sub _ _ hi]
    · intro hf
      refine (ldev_loop_untouched env usb_devices _ _ ?_ hf).2
      intro _
      exact ⟨rfl, by simp [installs_append, installs, hi]⟩
  · simp only [if_neg he]
    refine ⟨by simp [he], ?_, ?_⟩
    · simp [installs_at_append, installs_at, installs_at_sub _ _ hi]
    · intro _; simp [installs_append, installs, hi]

theorem cert_stage_start (cfg : Config) (env : Env) :
    (cert_stage cfg env
      { dev := dev_init, matching_device_found := false,
        r := env.sign_driver_inf, calls := [Call.sign_driver_inf dev_init] }).dev = dev_init
    ∧ installs (cert_stage cfg env
      { dev := dev_init, matching_device_found := false,
        r := env.sign_driver_inf, calls := [Call.sign_driver_inf dev_init] }).calls = [] := by
  obtain ⟨h1, _, h3⟩ := cert_stage_frame cfg env
    { dev := dev_init, matching_device_found := false,
      r := env.sign_driver_inf, calls := [Call.sign_driver_inf dev_init] }
  exact ⟨h1, by rw [h3]; rfl⟩

/-- C9: when preparation succeeded and extraction-only is off, the fallback
install call is issued if and only if the enumeration failed or no enumerated
device matches a known-table entry; a run never holds both match-loop
install calls and the fallback install call, whatever the install calls of
the match loop returned. -/
theorem main_fallback_iff_no_match (cfg : Config) (env : Env)
    (hp : env.sign_driver_inf = WDI_SUCCESS) (hx : cfg.opt_extract = 0) :
    (installs_at Site.fallback (main cfg env).calls ≠ [] ↔
        (env.create_list.1 ≠ WDI_SUCCESS
          ∨ ∀ D ∈ env.create_list.2, device_matches usb_devices dev_init D = false))
      ∧ (installs_at Site.fallback (main cfg env).calls = []
          ∨ installs_at Site.match_loop (main cfg env).calls = [])
      ∧ (installs_at Site.fallback (main cfg env).calls).length ≤ 1 := by
  rw [main_eq cfg env hp hx]
  obtain ⟨hd, hi⟩ := cert_stage_start cfg env
  obtain ⟨hflag, hfb, hclear⟩ := match_stage_summary env _ hd hi
  generalize match_stage env usb_devices (cert_stage cfg env
      { dev := dev_init, matching_device_found := false,
        r := env.sign_driver_inf, calls := [Call.sign_driver_inf dev_init] }) = s
    at hflag hfb hclear
  have hcond : s.matching_device_found = false ↔
      (env.create_list.1 ≠ WDI_SUCCESS
        ∨ ∀ D ∈ env.create_list.2, device_matches usb_devices dev_init D = false) := by
    rw [hflag]
    by_cases he : env.create_list.1 = WDI_SUCCESS
    · simp [he]
    · simp [he]
  unfold fallback_stage
  by_cases hf : s.matching_device_found = true
  · rw [if_pos hf]
    refine ⟨?_, Or.inl hfb, by simp [hfb]⟩
    rw [← hcond]
    simp [hfb, hf]
  · rw [if_neg hf]
    have hf2 : s.matching_device_found = false := by simpa using hf
    have hml : installs_at Site.match_loop s.calls = [] :=
      installs_at_sub _ _ (hclear hf2)
    refine ⟨?_, Or.inr ?_, ?_⟩
    · rw [← hcond]
      simp [call_install_driver, installs_at_append, installs_at, hf2]
    · simp [call_install_driver, installs_at_append, installs_at, hml]
    · simp [call_install_driver, installs_at_append, installs_at, hfb]

theorem main_fallback_iff_no_match_witness :
    (env_first_install_fails [dev_other, dev_xu1541, dev_xum1541]).sign_driver_inf
        = WDI_SUCCESS
      ∧ cfg_plain.opt_extract = 0
      ∧ installs_at Site.match_loop
          (main cfg_plain (env_first_install_fails [dev_other, dev_xu1541, dev_xum1541])).calls
          = [matched_descriptor dev_init dev_xu1541 ⟨0x0403, 0xc632⟩]
      ∧ (main cfg_plain (env_first_install_fails [dev_other, dev_xu1541, dev_xum1541])).r
          = -14
      ∧ installs_at Site.fallback
          (main cfg_plain (env_first_install_fails [dev_other, dev_xu1541, dev_xum1541])).calls
          = [] :=
  ⟨rfl, rfl, by decide, by decide, by
    have h := main_fallback_iff_no_match cfg_plain
      (env_first_install_fails [dev_other, dev_xu1541, dev_xum1541]) rfl rfl
    rcases h.2.1 with h1 | h1
    · exact h1
    · exact absurd h1 (by decide)⟩

/-! ## The match loop when every install succeeds -/

theorem find_pair (tbl : List USB_DEVICES) (D : wdi_device_info) :
    tbl.find? (fun T => D.vid == T.vid && D.pid == T.pid)
      = if (⟨D.vid, D.pid⟩ : USB_DEVICES) ∈ tbl then some ⟨D.vid, D.pid⟩ else none := by
  induction tbl with
  | nil => simp
  | cons t ts ih =>
    cases t with
    | mk v p =>
      by_cases h : D.vid = v ∧ D.pid = p
      · simp [List.find?, h.1, h.2]
      · have hb : (D.vid == v && D.pid == p) = false := by
          simpa using h
        have hne : ¬ ((⟨D.vid, D.pid⟩ : USB_DEVICES) = ⟨v, p⟩) := by
          intro e; injection e with e1 e2; exact h ⟨e1, e2⟩
        simp only [List.find?, hb, ih, List.mem_cons, hne, false_or]

theorem expected_installs_cons (tbl : List USB_DEVICES) (dev D : wdi_device_info)
    (rest : List wdi_device_info) :
    expected_installs tbl dev (D :: rest) =
      if device_matches tbl dev D = true then
        matched_descriptor dev D ⟨D.vid, D.pid⟩ :: expected_installs tbl dev rest
      else expected_installs tbl dev rest := by
  rw [expected_installs, find_pair]
  by_cases hm : device_matches tbl dev D = true
  · rw [if_pos hm]
    rw [device_matches_iff] at hm
    simp [hm.1, hm.2.1, hm.2.2]
  · rw [if_neg hm]
    rw [device_matches_iff] at hm
    by_cases h1 : D.mi = dev.mi ∧ D.is_composite = dev.is_composite
    · have : (⟨D.vid, D.pid⟩ : USB_DEVICES) ∉ tbl := fun h => hm ⟨h, h1.1, h1.2⟩
      simp [h1, this]
    · simp [h1]

theorem expected_installs_congr (tbl : List USB_DEVICES) (dev dev2 : wdi_device_info)
    (hmi : dev2.mi = dev.mi) (hc : dev2.is_composite = dev.is_composite)
    (hdesc : dev2.desc = dev.desc) (hdrv : dev2.driver = dev.driver)
    (devs : List wdi_device_info) :
    expected_installs tbl dev2 devs = expected_installs tbl dev devs := by
  induction devs with
  | nil => rfl
  | cons D ds ih =>
    rw [expected_installs_cons, expected_installs_cons, ih,
      device_matches_congr tbl dev dev2 D hmi hc]
    simp [matched_descriptor, hmi, hc, hdesc, hdrv]

/-- The outer loop when every install call succeeds: one install call per
matching device, in enumeration order. -/
theorem ldev_loop_all_succeed (env : Env) (tbl : List USB_DEVICES) (hnd : tbl.Nodup)
    (hall : ∀ k d, env.install_driver k d = WDI_SUCCESS)
    (devs : List wdi_device_info) (s : St) (hr : s.r = WDI_SUCCESS) :
    (ldev_loop env tbl devs s).calls
        = s.calls ++ (expected_installs tbl s.dev devs).map
            (Call.install_driver Site.match_loop)
      ∧ (ldev_loop env tbl devs s).r = WDI_SUCCESS := by
  induction devs generalizing s with
  | nil => simp [ldev_loop, expected_installs, hr]
  | cons D ds ih =>
    rw [ldev_loop_cons env tbl hnd D ds s hr, expected_installs_cons]
    by_cases hm : device_matches tbl s.dev D = true
    · rw [if_pos hm, if_pos hm]
      obtain ⟨h1, h2⟩ := ih
        { dev := set_ids tbl { s.dev with hardware_id := D.hardware_id,
                                          device_id := D.device_id }
          matching_device_found := true
          r := env.install_driver (installs s.calls).length
                (matched_descriptor s.dev D ⟨D.vid, D.pid⟩)
          calls := s.calls ++ [Call.install_driver Site.match_loop
                (matched_descriptor s.dev D ⟨D.vid, D.pid⟩)] } (hall _ _)
      refine ⟨?_, h2⟩
      rw [h1]
      obtain ⟨f1, f2, f3, f4, _, _⟩ := set_ids_frame tbl
        { s.dev with hardware_id := D.hardware_id, device_id := D.device_id }
      rw [expected_installs_congr tbl s.dev _ f1 f2 f3 f4]
      simp
    · rw [if_neg hm, if_neg hm]
      obtain ⟨h1, h2⟩ := ih { s with dev := set_ids tbl s.dev } hr
      refine ⟨?_, h2⟩
      rw [h1]
      obtain ⟨f1, f2, f3, f4, _, _⟩ := set_ids_frame tbl s.dev
      rw [expected_installs_congr tbl s.dev _ f1 f2 f3 f4]

theorem installs_at_map_same (site : Site) (ds : List wdi_device_info) :
    installs_at site (ds.map (Call.install_driver site)) = ds := by
  induction ds with
  | nil => rfl
  | cons d ds ih => simp [installs_at, ih]

theorem installs_map (site : Site) (ds : List wdi_device_info) :
    installs (ds.map (Call.install_driver site)) = ds := by
  induction ds with
  | nil => rfl
  | cons d ds ih => simp [installs, ih]

theorem expected_installs_eq_filter_map (tbl : List USB_DEVICES) (dev : wdi_device_info)
    (devs : List wdi_device_info) :
    expected_installs tbl dev devs
      = (devs.filter (device_matches tbl dev)).map
          (fun D => matched_descriptor dev D ⟨D.vid, D.pid⟩) := by
  induction devs with
  | nil => rfl
  | cons D ds ih =>
    rw [expected_installs_cons, ih]
    by_cases hm : device_matches tbl dev D = true
    · simp [hm]
    · simp [hm]

/-- C2, as the code has it: when preparation succeeded, extraction-only is
off, the enumeration succeeded and every install call returns success, the
install calls issued by the match loop are exactly one call per enumerated
device that matches a table entry on vid and pid and the descriptor on mi (0)
and composite flag (false), in enumeration order, each with that device's
hardware ID and device ID and the entry's vid and pid.  If at least one
device matches, these are all the install calls of the run; if none does, the
run issues exactly one install call, the fallback. -/
theorem main_match_and_install (cfg : Config) (env : Env)
    (hp : env.sign_driver_inf = WDI_SUCCESS) (hx : cfg.opt_extract = 0)
    (he : env.create_list.1 = WDI_SUCCESS)
    (hall : ∀ k d, env.install_driver k d = WDI_SUCCESS) :
    installs_at Site.match_loop (main cfg env).calls
        = expected_installs usb_devices dev_init env.create_list.2
      ∧ (expected_installs usb_devices dev_init env.create_list.2 ≠ [] →
          installs (main cfg env).calls
            = expected_installs usb_devices dev_init env.create_list.2)
      ∧ (expected_installs usb_devices dev_init env.create_list.2 = [] →
          (installs (main cfg env).calls).length = 1
            ∧ installs_at Site.fallback (main cfg env).calls
                = installs (main cfg env).calls)
      ∧ expected_installs usb_devices dev_init env.create_list.2
          = (env.create_list.2.filter (device_matches usb_devices dev_init)).map
              (fun D => matched_descriptor dev_init D ⟨D.vid, D.pid⟩) := by
  rw [← and_assoc, ← and_assoc]
  refine ⟨?_, expected_installs_eq_filter_map _ _ _⟩
  rw [and_assoc]
  rw [main_eq cfg env hp hx]
  obtain ⟨hd, hi⟩ := cert_stage_start cfg env
  obtain ⟨_, _, hclear⟩ := match_stage_summary env _ hd hi
  have hlast := match_stage_r_is_last_status env usb_devices (cert_stage cfg env
      { dev := dev_init, matching_device_found := false,
        r := env.sign_driver_inf, calls := [Call.sign_driver_inf dev_init] })
  have hcalls : (match_stage env usb_devices (cert_stage cfg env
      { dev := dev_init, matching_device_found := false,
        r := env.sign_driver_inf, calls := [Call.sign_driver_inf dev_init] })).calls
      = ((cert_stage cfg env
      { dev := dev_init, matching_device_found := false,
        r := env.sign_driver_inf, calls := [Call.sign_driver_inf dev_init] }).calls
          ++ [Call.create_list])
        ++ (expected_installs usb_devices dev_init env.create_list.2).map
            (Call.install_driver Site.match_loop) := by
    unfold match_stage
    simp only [if_pos he]
    rw [(ldev_loop_all_succeed env usb_devices usb_devices_nodup hall _ _ rfl).1]
    simp [hd]
  generalize match_stage env usb_devices (cert_stage cfg env
      { dev := dev_init, matching_device_found := false,
        r := env.sign_driver_inf, calls := [Call.sign_driver_inf dev_init] }) = s
    at hclear hcalls hlast
  generalize (cert_stage cfg env
      { dev := dev_init, matching_device_found := false,
        r := env.sign_driver_inf, calls := [Call.sign_driver_inf dev_init] }).calls = c0
    at hi hcalls
  have hml : installs_at Site.match_loop s.calls
      = expected_installs usb_devices dev_init env.create_list.2 := by
    rw [hcalls]
    simp [installs_at_append, installs_at, installs_at_sub _ _ hi, installs_at_map_same]
  have hin : installs s.calls
      = expected_installs usb_devices dev_init env.create_list.2 := by
    rw [hcalls]
    simp [installs_append, installs, hi, installs_map]
  unfold fallback_stage
  by_cases hf : s.matching_device_found = true
  · rw [if_pos hf]
    refine ⟨hml, fun _ => hin, ?_⟩
    intro hE
    obtain ⟨d, hd2, _⟩ := hlast hf
    rw [hin, hE] at hd2
    simp at hd2
  · rw [if_neg hf]
    have hf2 : s.matching_device_found = false := by simpa using hf
    have hnil := hclear hf2
    refine ⟨?_, ?_, ?_⟩
    · simp [call_install_driver, installs_at_append, installs_at, hml]
    · intro hne; rw [← hin, hnil] at hne; exact absurd rfl hne
    · intro _
      simp [call_install_driver, installs_at_append, installs_at, installs_append, installs,
        hnil, installs_at_sub _ _ hnil]

theorem main_match_and_install_witness :
    (env_ok [dev_xu1541]).sign_driver_inf = WDI_SUCCESS
      ∧ cfg_plain.opt_extract = 0
      ∧ (env_ok [dev_xu1541]).create_list.1 = WDI_SUCCESS
      ∧ (∀ k d, (env_ok [dev_xu1541]).install_driver k d = WDI_SUCCESS)
      ∧ installs (main cfg_plain (env_ok [dev_xu1541])).calls
          = [{ dev_init with vid := 0x0403, pid := 0xc632,
                             hardware_id := dev_xu1541.hardware_id,
                             device_id := dev_xu1541.device_id }] :=
  ⟨rfl, rfl, rfl, fun _ _ => rfl, by
    have h := (main_match_and_install cfg_plain (env_ok [dev_xu1541]) rfl rfl rfl
      (fun _ _ => rfl)).2.1 (by decide)
    rw [h]
    decide⟩

/-- C2 as stated fails when no enumerated device matches: preparation,
enumeration and every install succeed, no device satisfies the test, and yet
the run issues one install call (the fallback). -/
theorem main_installs_without_match_counterexample :
    (env_ok [dev_other]).sign_driver_inf = WDI_SUCCESS
      ∧ cfg_plain.opt_extract = 0
      ∧ (env_ok [dev_other]).create_list = (WDI_SUCCESS, [dev_other])
      ∧ device_matches usb_devices dev_init dev_other = false
      ∧ expected_installs usb_devices dev_init [dev_other] = []
      ∧ (installs (main cfg_plain (env_ok [dev_other])).calls).length = 1
      ∧ installs (main cfg_plain (env_ok [dev_other])).calls
          ≠ expected_installs usb_devices dev_init [dev_other] := by
  decide

/-! ## Fail-fast across matched devices -/

theorem check_usb_body_env_congr (env env2 : Env)
    (h : env.install_driver = env2.install_driver)
    (D : wdi_device_info) (t : USB_DEVICES) (s : St) :
    check_usb_body env D t s = check_usb_body env2 D t s := by
  rw [check_usb_body_eq, check_usb_body_eq, h]

theorem check_usb_loop_env_congr (env env2 : Env)
    (h : env.install_driver = env2.install_driver)
    (D : wdi_device_info) (ts : List USB_DEVICES) (s : St) :
    check_usb_loop env D ts s = check_usb_loop env2 D ts s := by
  induction ts generalizing s with
  | nil => rfl
  | cons t ts ih =>
    rw [check_usb_loop, check_usb_loop, check_usb_body_env_congr env env2 h, ih]

theorem ldev_loop_env_congr (env env2 : Env)
    (h : env.install_driver = env2.install_driver)
    (tbl : List USB_DEVICES) (devs : List wdi_device_info) (s : St) :
    ldev_loop env tbl devs s = ldev_loop env2 tbl devs s := by
  induction devs generalizing s with
  | nil => rfl
  | cons D ds ih =>
    rw [ldev_loop, ldev_loop, check_usb_loop_env_congr env env2 h, ih]

theorem ldev_loop_failures_are_last (env : Env) (tbl : List USB_DEVICES)
    (hnd : tbl.Nodup) (devs : List wdi_device_info) (s : St)
    (h : failures_are_last env s) : failures_are_last env (ldev_loop env tbl devs s) := by
  induction devs generalizing s with
  | nil => exact h
  | cons D ds ih =>
    by_cases hr : s.r = WDI_SUCCESS
    · rw [ldev_loop_cons env tbl hnd D ds s hr]
      split
      · apply ih
        have hold : ∀ k d, (installs s.calls ++
            [matched_descriptor s.dev D ⟨D.vid, D.pid⟩])[k]? = some d →
            k < (installs s.calls).length → env.install_driver k d = WDI_SUCCESS := by
          intro k d hk hlt
          rw [List.getElem?_append_left hlt] at hk
          exact h.2 hr k d hk
        constructor
        · intro k d hk hlt
          simp only [installs_snoc_install, List.length_append, List.length_singleton] at hk hlt
          exact hold k d hk (by omega)
        · intro hr2 k d hk
          simp only [installs_snoc_install] at hk
          by_cases hlt : k < (installs s.calls).length
          · exact hold k d hk hlt
          · rw [List.getElem?_append_right (by omega)] at hk
            have hk0 : k - (installs s.calls).length = 0 := by
              by_contra hne
              have : 1 ≤ k - (installs s.calls).length := by omega
              rw [List.getElem?_eq_none (by simpa using this)] at hk
              simp at hk
            rw [hk0] at hk
            simp only [List.getElem?_cons_zero, Option.some.injEq] at hk
            have hkeq : k = (installs s.calls).length := by omega
            rw [← hk, hkeq]
            exact hr2
      · exact ih _ h
    · rw [ldev_loop_stop env tbl _ s hr]
      exact h

theorem main_of_list (cfg : Config) (env : Env)
    (hp : env.sign_driver_inf = WDI_SUCCESS) (hx : cfg.opt_extract = 0)
    (he : env.create_list.1 = WDI_SUCCESS) :
    main cfg env = fallback_stage env
      (ldev_loop env usb_devices env.create_list.2 (loop_start cfg env)) := by
  rw [main_eq cfg env hp hx]
  unfold match_stage
  simp only [if_pos he]
  congr 2
  obtain ⟨hd, _⟩ := cert_stage_start cfg env
  simp [loop_start, hd]

theorem loop_start_installs (cfg : Config) (env : Env) :
    installs (loop_start cfg env).calls = [] := by
  simp [loop_start, installs_append, installs, (cert_stage_start cfg env).2]

theorem fallback_stage_env_congr (env env2 : Env)
    (h : env.install_driver = env2.install_driver) (s : St) :
    fallback_stage env s = fallback_stage env2 s := by
  simp [fallback_stage, call_install_driver, h]

/-- Every install call of a run that returns a failure is the last install
call of the run, and its status is what `main` returns. -/
theorem main_failure_is_final (cfg : Config) (env : Env) (k : Nat) (d : wdi_device_info)
    (hk : (installs (main cfg env).calls)[k]? = some d)
    (hfail : env.install_driver k d ≠ WDI_SUCCESS) :
    k + 1 = (installs (main cfg env).calls).length
      ∧ (main cfg env).r = env.install_driver k d := by
  by_cases hpx : env.sign_driver_inf ≠ WDI_SUCCESS ∨ cfg.opt_extract ≠ 0
  · rw [(main_stage1_exit_calls cfg env hpx)] at hk
    simp [installs] at hk
  · have hp : env.sign_driver_inf = WDI_SUCCESS := by
      by_contra h; exact hpx (Or.inl h)
    have hx : cfg.opt_extract = 0 := by
      by_contra h; exact hpx (Or.inr h)
    obtain ⟨hd, hi⟩ := cert_stage_start cfg env
    have hsum := match_stage_summary env _ hd hi
    have hlast := match_stage_r_is_last_status env usb_devices (cert_stage cfg env
      { dev := dev_init, matching_device_found := false,
        r := env.sign_driver_inf, calls := [Call.sign_driver_inf dev_init] })
    have hF : failures_are_last env (match_stage env usb_devices (cert_stage cfg env
      { dev := dev_init, matching_device_found := false,
        r := env.sign_driver_inf, calls := [Call.sign_driver_inf dev_init] })) := by
      have hstart : ∀ r, failures_are_last env
          { (cert_stage cfg env
            { dev := dev_init, matching_device_found := false,
              r := env.sign_driver_inf, calls := [Call.sign_driver_inf dev_init] }) with
            matching_device_found := false
            calls := (cert_stage cfg env
              { dev := dev_init, matching_device_found := false,
                r := env.sign_driver_inf,
                calls := [Call.sign_driver_inf dev_init] }).calls ++ [Call.create_list]
            r := r } := by
        intro r
        constructor <;> simp [installs_append, installs, hi]
      unfold match_stage
      split
      · exact ldev_loop_failures_are_last env usb_devices usb_devices_nodup _ _ (hstart _)
      · exact hstart _
    rw [main_eq cfg env hp hx] at hk ⊢
    generalize match_stage env usb_devices (cert_stage cfg env
      { dev := dev_init, matching_device_found := false,
        r := env.sign_driver_inf, calls := [Call.sign_driver_inf dev_init] }) = s
      at hsum hlast hF hk ⊢
    unfold fallback_stage at hk ⊢
    by_cases hf : s.matching_device_found = true
    · rw [if_pos hf] at hk ⊢
      obtain ⟨d2, hd2, hr2⟩ := hlast hf
      have hklt : k < (installs s.calls).length := by
        by_contra hge
        rw [List.getElem?_eq_none (by omega)] at hk
        simp at hk
      have hkl : k + 1 = (installs s.calls).length := by
        by_contra hne
        exact hfail (hF.1 k d hk (by omega))
      refine ⟨hkl, ?_⟩
      rw [List.getLast?_eq_getElem?] at hd2
      have : (installs s.calls).length - 1 = k := by omega
      rw [this, hk] at hd2
      rw [hr2, this]
      injection hd2 with hd2
      rw [hd2]
    · rw [if_neg hf] at hk ⊢
      have hf2 : s.matching_device_found = false := by simpa using hf
      have hnil := hsum.2.2 hf2
      simp only [call_install_driver, installs_snoc_install, hnil, List.nil_append,
        List.length_nil, List.length_singleton] at hk ⊢
      cases k with
      | zero =>
        simp only [List.getElem?_cons_zero, Option.some.injEq] at hk
        rw [← hk]
        exact ⟨rfl, rfl⟩
      | succ k => simp at hk

/-- Once an install call of the match loop has failed, the enumerated
devices that follow have no influence on the run. -/
theorem main_ignores_devices_after_failure (cfg : Config) (env : Env)
    (pre rest : List wdi_device_info)
    (hp : env.sign_driver_inf = WDI_SUCCESS) (hx : cfg.opt_extract = 0)
    (hml : installs_at Site.match_loop
      (main cfg { env with create_list := (WDI_SUCCESS, pre) }).calls ≠ [])
    (hr : (main cfg { env with create_list := (WDI_SUCCESS, pre) }).r ≠ WDI_SUCCESS) :
    main cfg { env with create_list := (WDI_SUCCESS, pre ++ rest) }
      = main cfg { env with create_list := (WDI_SUCCESS, pre) } := by
  have hA := main_of_list cfg { env with create_list := (WDI_SUCCESS, pre) } hp hx rfl
  have hB := main_of_list cfg { env with create_list := (WDI_SUCCESS, pre ++ rest) } hp hx rfl
  have hstart : loop_start cfg { env with create_list := (WDI_SUCCESS, pre ++ rest) }
      = loop_start cfg { env with create_list := (WDI_SUCCESS, pre) } := by
    simp only [loop_start, cert_stage]
  rw [hA] at hml hr
  rw [hA, hB, hstart]
  simp only [] at hml hr ⊢
  rw [fallback_stage_env_congr { env with create_list := (WDI_SUCCESS, pre ++ rest) }
        { env with create_list := (WDI_SUCCESS, pre) } rfl,
      ldev_loop_env_congr { env with create_list := (WDI_SUCCESS, pre ++ rest) }
        { env with create_list := (WDI_SUCCESS, pre) } rfl,
      ldev_loop_append]
  have hclear := ldev_loop_untouched { env with create_list := (WDI_SUCCESS, pre) }
      usb_devices pre (loop_start cfg { env with create_list := (WDI_SUCCESS, pre) })
      (fun _ => ⟨rfl, loop_start_installs cfg _⟩)
  generalize ldev_loop { env with create_list := (WDI_SUCCESS, pre) } usb_devices pre
      (loop_start cfg { env with create_list := (WDI_SUCCESS, pre) }) = sA
    at hml hr hclear ⊢
  have hf : sA.matching_device_found = true := by
    by_contra hf
    have hf2 : sA.matching_device_found = false := by simpa using hf
    apply hml
    have hnil := (hclear hf2).2
    simp [fallback_stage, hf2, call_install_driver, installs_at_append, installs_at,
      installs_at_sub _ _ hnil]
  have hfb : ∀ e : Env, fallback_stage e sA = sA := by
    intro e; simp [fallback_stage, hf]
  rw [hfb] at hr
  rw [ldev_loop_stop _ _ _ sA hr]

/-- C3: an install call that returns a failure is the last install call of
the run (no further install call of any kind follows) and `main` returns its
status; and once an install call of the match loop has failed, the run is the
same whatever enumerated devices follow, so none of them is examined. -/
theorem main_fail_fast (cfg : Config) (env : Env) :
    (∀ k d, (installs (main cfg env).calls)[k]? = some d →
        env.install_driver k d ≠ WDI_SUCCESS →
        k + 1 = (installs (main cfg env).calls).length
          ∧ (main cfg env).r = env.install_driver k d)
      ∧ (∀ pre rest, env.sign_driver_inf = WDI_SUCCESS → cfg.opt_extract = 0 →
          installs_at Site.match_loop
            (main cfg { env with create_list := (WDI_SUCCESS, pre) }).calls ≠ [] →
          (main cfg { env with create_list := (WDI_SUCCESS, pre) }).r ≠ WDI_SUCCESS →
          main cfg { env with create_list := (WDI_SUCCESS, pre ++ rest) }
            = main cfg { env with create_list := (WDI_SUCCESS, pre) }) :=
  ⟨fun k d hk hfail => main_failure_is_final cfg env k d hk hfail,
   fun pre rest hp hx hml hr =>
    main_ignores_devices_after_failure cfg env pre rest hp hx hml hr⟩

theorem main_fail_fast_witness :
    (installs (main cfg_plain
        (env_first_install_fails [dev_xu1541, dev_xum1541])).calls)[0]?
        = some (matched_descriptor dev_init dev_xu1541 ⟨0x0403, 0xc632⟩)
      ∧ (env_first_install_fails [dev_xu1541, dev_xum1541]).install_driver 0
          (matched_descriptor dev_init dev_xu1541 ⟨0x0403, 0xc632⟩) = -14
      ∧ (0 + 1 = (installs (main cfg_plain
            (env_first_install_fails [dev_xu1541, dev_xum1541])).calls).length
          ∧ (main cfg_plain (env_first_install_fails [dev_xu1541, dev_xum1541])).r
              = (env_first_install_fails [dev_xu1541, dev_xum1541]).install_driver 0
                  (matched_descriptor dev_init dev_xu1541 ⟨0x0403, 0xc632⟩))
      ∧ main cfg_plain { env_first_install_fails [] with
            create_list := (WDI_SUCCESS, [dev_xu1541] ++ [dev_xum1541]) }
          = main cfg_plain { env_first_install_fails [] with
            create_list := (WDI_SUCCESS, [dev_xu1541]) } :=
  ⟨by decide, by decide,
   (main_fail_fast cfg_plain (env_first_install_fails [dev_xu1541, dev_xum1541])).1 0
      (matched_descriptor dev_init dev_xu1541 ⟨0x0403, 0xc632⟩) (by decide) (by decide),
   (main_fail_fast cfg_plain (env_first_install_fails [])).2 [dev_xu1541] [dev_xum1541]
      rfl rfl (by decide) (by decide)⟩

/-! ## The fallback after an enumeration without a match -/

theorem set_ids_usb_devices (d : wdi_device_info) :
    set_ids usb_devices d = { d with vid := 0x03eb, pid := 0x2ffb } := rfl

/-- The outer loop over a non-empty list without a match leaves everything
as it was except the vendor and product ID of the descriptor, which are those
of the last table entry. -/
theorem ldev_loop_without_match (env : Env) (devs : List wdi_device_info) (s : St)
    (hr : s.r = WDI_SUCCESS) (hne : devs ≠ [])
    (hno : ∀ D ∈ devs, device_matches usb_devices s.dev D = false) :
    ldev_loop env usb_devices devs s
      = { s with dev := { s.dev with vid := 0x03eb, pid := 0x2ffb } } := by
  induction devs generalizing s with
  | nil => exact absurd rfl hne
  | cons D ds ih =>
    rw [ldev_loop_cons env usb_devices usb_devices_nodup D ds s hr,
      if_neg (by simp [hno D (List.mem_cons_self _ _)]), set_ids_usb_devices]
    by_cases hds : ds = []
    · subst hds; rfl
    · have hno2 : ∀ E ∈ ds, device_matches usb_devices
          ({ s with dev := { s.dev with vid := 0x03eb, pid := 0x2ffb } } : St).dev E
            = false := by
        intro E hE
        exact (device_matches_congr usb_devices s.dev _ E rfl rfl).trans
          (hno E (List.mem_cons_of_mem _ hE))
      exact ih { s with dev := { s.dev with vid := 0x03eb, pid := 0x2ffb } } hr hds hno2

/-- The code on every non-empty enumeration without a match: one install
call, the fallback, with the vendor and product ID of the last table entry
and the status of that call returned. -/
theorem main_fallback_descriptor_without_match (cfg : Config) (env : Env)
    (hp : env.sign_driver_inf = WDI_SUCCESS) (hx : cfg.opt_extract = 0)
    (he : env.create_list.1 = WDI_SUCCESS) (hne : env.create_list.2 ≠ [])
    (hno : ∀ D ∈ env.create_list.2, device_matches usb_devices dev_init D = false) :
    installs (main cfg env).calls = [{ dev_init with vid := 0x03eb, pid := 0x2ffb }]
      ∧ installs_at Site.fallback (main cfg env).calls
          = [{ dev_init with vid := 0x03eb, pid := 0x2ffb }]
      ∧ (main cfg env).r
          = env.install_driver 0 { dev_init with vid := 0x03eb, pid := 0x2ffb } := by
  rw [main_of_list cfg env hp hx he,
    ldev_loop_without_match env _ (loop_start cfg env) rfl hne hno]
  have hi := loop_start_installs cfg env
  simp [fallback_stage, call_install_driver, loop_start, installs_append, installs,
    installs_at_append, installs_at, installs_at_sub _ _ (cert_stage_start cfg env).2,
    (cert_stage_start cfg env).2]

/-! ## The certificate stage does not influence the install stage -/

theorem agree_check_usb_body (env : Env) (D : wdi_device_info) (t : USB_DEVICES)
    (s s2 : St) (h : agree_on_installs s s2) :
    agree_on_installs (check_usb_body env D t s) (check_usb_body env D t s2) := by
  obtain ⟨h1, h2, h3, h4, h5⟩ := h
  rw [check_usb_body_eq, check_usb_body_eq, h1]
  split
  · refine ⟨rfl, rfl, by rw [h4], by simp [installs_snoc_install, h4], ?_⟩
    intro site
    simp [installs_at_append, h5 site]
  · exact ⟨rfl, h2, h3, h4, h5⟩

theorem agree_check_usb_loop (env : Env) (D : wdi_device_info) (ts : List USB_DEVICES)
    (s s2 : St) (h : agree_on_installs s s2) :
    agree_on_installs (check_usb_loop env D ts s) (check_usb_loop env D ts s2) := by
  induction ts generalizing s s2 with
  | nil => exact h
  | cons t ts ih =>
    rw [check_usb_loop, check_usb_loop]
    exact ih _ _ (agree_check_usb_body env D t s s2 h)

theorem agree_ldev_loop (env : Env) (tbl : List USB_DEVICES) (devs : List wdi_device_info)
    (s s2 : St) (h : agree_on_installs s s2) :
    agree_on_installs (ldev_loop env tbl devs s) (ldev_loop env tbl devs s2) := by
  induction devs generalizing s s2 with
  | nil => exact h
  | cons D ds ih =>
    rw [ldev_loop, ldev_loop, ← h.2.2.1]
    split
    · exact ih _ _ (agree_check_usb_loop env D tbl s s2 h)
    · exact h

theorem agree_fallback_stage (env : Env) (s s2 : St)
    (h : s.dev = s2.dev ∧ s.matching_device_found = s2.matching_device_found
          ∧ (s.matching_device_found = true → s.r = s2.r)
          ∧ installs s.calls = installs s2.calls
          ∧ ∀ site, installs_at site s.calls = installs_at site s2.calls) :
    agree_on_installs (fallback_stage env s) (fallback_stage env s2) := by
  obtain ⟨h1, h2, h3, h4, h5⟩ := h
  unfold fallback_stage
  rw [← h2]
  split
  · next hf => exact ⟨h1, h2, h3 hf, h4, h5⟩
  · refine ⟨h1, h2, by simp [call_install_driver, h1, h4],
      by simp [call_install_driver, installs_snoc_install, h1, h4], ?_⟩
    intro site
    simp [call_install_driver, installs_at_append, h5 site, h1]

theorem check_usb_body_calls_mono (env : Env) (D : wdi_device_info) (t : USB_DEVICES)
    (s : St) (c : Call) (h : c ∈ s.calls) : c ∈ (check_usb_body env D t s).calls := by
  rw [check_usb_body_eq]
  split
  · exact List.mem_append_left _ h
  · exact h

theorem check_usb_loop_calls_mono (env : Env) (D : wdi_device_info)
    (ts : List USB_DEVICES) (s : St) (c : Call) (h : c ∈ s.calls) :
    c ∈ (check_usb_loop env D ts s).calls := by
  induction ts generalizing s with
  | nil => exact h
  | cons t ts ih =>
    rw [check_usb_loop]
    exact ih _ (check_usb_body_calls_mono env D t s c h)

theorem ldev_loop_calls_mono (env : Env) (tbl : List USB_DEVICES)
    (devs : List wdi_device_info) (s : St) (c : Call) (h : c ∈ s.calls) :
    c ∈ (ldev_loop env tbl devs s).calls := by
  induction devs generalizing s with
  | nil => exact h
  | cons D ds ih =>
    rw [ldev_loop]
    split
    · exact ih _ (check_usb_loop_calls_mono env D tbl s c h)
    · exact h

theorem main_enumerates (cfg : Config) (env : Env)
    (hp : env.sign_driver_inf = WDI_SUCCESS) (hx : cfg.opt_extract = 0) :
    Call.create_list ∈ (main cfg env).calls := by
  rw [main_eq cfg env hp hx]
  have h1 : ∀ s, Call.create_list ∈ (match_stage env usb_devices s).calls := by
    intro s
    unfold match_stage
    split
    · exact ldev_loop_calls_mono _ _ _ _ _ (by simp)
    · simp
  have h2 : ∀ s, Call.create_list ∈ s.calls →
      Call.create_list ∈ (fallback_stage env s).calls := by
    intro s hs
    unfold fallback_stage
    split
    · exact hs
    · exact List.mem_append_left _ hs
  exact h2 _ (h1 _)

/-- What `main` returns and the install calls it issues depend neither on
whether a certificate name was given nor on the status of the certificate
install. -/
theorem main_independent_of_certificate (cfg cfg2 : Config) (env env2 : Env)
    (hp : env.sign_driver_inf = WDI_SUCCESS) (hx : cfg.opt_extract = 0)
    (hp2 : env2.sign_driver_inf = WDI_SUCCESS) (hx2 : cfg2.opt_extract = 0)
    (hl : env.create_list = env2.create_list)
    (hi : env.install_driver = env2.install_driver) :
    agree_on_installs (main cfg env) (main cfg2 env2) := by
  rw [main_eq cfg env hp hx, main_eq cfg2 env2 hp2 hx2]
  obtain ⟨hd, hn⟩ := cert_stage_start cfg env
  obtain ⟨hd2, hn2⟩ := cert_stage_start cfg2 env2
  generalize cert_stage cfg env
      { dev := dev_init, matching_device_found := false,
        r := env.sign_driver_inf, calls := [Call.sign_driver_inf dev_init] } = a
    at hd hn
  generalize cert_stage cfg2 env2
      { dev := dev_init, matching_device_found := false,
        r := env2.sign_driver_inf, calls := [Call.sign_driver_inf dev_init] } = b
    at hd2 hn2
  rw [fallback_stage_env_congr env env2 hi]
  apply agree_fallback_stage
  have hat : ∀ site, installs_at site (a.calls ++ [Call.create_list])
      = installs_at site (b.calls ++ [Call.create_list]) := by
    intro site
    simp [installs_at_append, installs_at_sub _ _ hn, installs_at_sub _ _ hn2]
  have hin : installs (a.calls ++ [Call.create_list])
      = installs (b.calls ++ [Call.create_list]) := by
    simp [installs_append, hn, hn2]
  unfold match_stage
  rw [← hl]
  by_cases he : env.create_list.1 = WDI_SUCCESS
  · simp only [if_pos he]
    rw [ldev_loop_env_congr env env2 hi]
    have hag := agree_ldev_loop env2 usb_devices env.create_list.2
      { a with matching_device_found := false, calls := a.calls ++ [Call.create_list],
               r := WDI_SUCCESS }
      { b with matching_device_found := false, calls := b.calls ++ [Call.create_list],
               r := WDI_SUCCESS }
      ⟨by simp [hd, hd2], rfl, rfl, hin, hat⟩
    exact ⟨hag.1, hag.2.1, fun _ => hag.2.2.1, hag.2.2.2.1, hag.2.2.2.2⟩
  · rw [if_neg he, if_neg he]
    exact ⟨by simp [hd, hd2], rfl, by simp, hin, hat⟩

theorem main_installs_nonempty (cfg : Config) (env : Env)
    (hp : env.sign_driver_inf = WDI_SUCCESS) (hx : cfg.opt_extract = 0) :
    installs (main cfg env).calls ≠ [] := by
  rw [main_eq cfg env hp hx]
  obtain ⟨d, hd, _⟩ := fallback_stage_last_status env _
    (match_stage_r_is_last_status env usb_devices
      (cert_stage cfg env
        { dev := dev_init, matching_device_found := false,
          r := env.sign_driver_inf, calls := [Call.sign_driver_inf dev_init] }))
  intro hnil
  rw [hnil] at hd
  simp at hd

/-- C7: when preparation succeeded and extraction-only is off, for every
certificate name and every status of the certificate install, the enumeration
is still invoked and at least one driver install is issued, and the install
calls and the status `main` returns are those of the run in which the
certificate install succeeded, and those of the run without a certificate
name. -/
theorem main_certificate_status_swallowed (cfg : Config) (env : Env)
    (name : String) (c : Int)
    (hp : env.sign_driver_inf = WDI_SUCCESS) (hx : cfg.opt_extract = 0) :
    Call.create_list ∈ (main { cfg with cert_name := some name }
        { env with install_trusted_certificate := c }).calls
      ∧ installs (main { cfg with cert_name := some name }
          { env with install_trusted_certificate := c }).calls ≠ []
      ∧ (installs (main { cfg with cert_name := some name }
            { env with install_trusted_certificate := c }).calls
          = installs (main { cfg with cert_name := some name }
            { env with install_trusted_certificate := WDI_SUCCESS }).calls
        ∧ (∀ site, installs_at site (main { cfg with cert_name := some name }
            { env with install_trusted_certificate := c }).calls
          = installs_at site (main { cfg with cert_name := some name }
            { env with install_trusted_certificate := WDI_SUCCESS }).calls)
        ∧ (main { cfg with cert_name := some name }
            { env with install_trusted_certificate := c }).r
          = (main { cfg with cert_name := some name }
            { env with install_trusted_certificate := WDI_SUCCESS }).r)
      ∧ (installs (main { cfg with cert_name := some name }
            { env with install_trusted_certificate := c }).calls
          = installs (main { cfg with cert_name := none } env).calls
        ∧ (∀ site, installs_at site (main { cfg with cert_name := some name }
            { env with install_trusted_certificate := c }).calls
          = installs_at site (main { cfg with cert_name := none } env).calls)
        ∧ (main { cfg with cert_name := some name }
            { env with install_trusted_certificate := c }).r
          = (main { cfg with cert_name := none } env).r) := by
  have h1 := main_independent_of_certificate { cfg with cert_name := some name }
    { cfg with cert_name := some name } { env with install_trusted_certificate := c }
    { env with install_trusted_certificate := WDI_SUCCESS } hp hx hp hx rfl rfl
  have h2 := main_independent_of_certificate { cfg with cert_name := some name }
    { cfg with cert_name := none } { env with install_trusted_certificate := c }
    env hp hx hp hx rfl rfl
  exact ⟨main_enumerates _ _ hp hx, main_installs_nonempty _ _ hp hx,
    ⟨h1.2.2.2.1, h1.2.2.2.2, h1.2.2.1⟩, ⟨h2.2.2.2.1, h2.2.2.2.2, h2.2.2.1⟩⟩

theorem main_certificate_status_swallowed_witness :
    (env_ok [dev_xu1541]).sign_driver_inf = WDI_SUCCESS
      ∧ cfg_plain.opt_extract = 0
      ∧ (main cfg_cert (env_cert_fails [dev_xu1541])).calls
          = [Call.sign_driver_inf dev_init, Call.install_trusted_certificate "cert",
             Call.create_list,
             Call.install_driver Site.match_loop
               (matched_descriptor dev_init dev_xu1541 ⟨0x0403, 0xc632⟩)]
      ∧ (main cfg_cert (env_cert_fails [dev_xu1541])).r
          = (main cfg_plain (env_ok [dev_xu1541])).r
      ∧ installs (main cfg_cert (env_cert_fails [dev_xu1541])).calls
          = installs (main cfg_plain (env_ok [dev_xu1541])).calls :=
  ⟨rfl, rfl, by decide,
   (main_certificate_status_swallowed cfg_plain (env_ok [dev_xu1541]) "cert" (-5)
      rfl rfl).2.2.2.2.2,
   (main_certificate_status_swallowed cfg_plain (env_ok [dev_xu1541]) "cert" (-5)
      rfl rfl).2.2.2.1⟩

/-! ## The nested loops against the flattened loop -/

theorem flat_loop_stop (env : Env) (ps : List (wdi_device_info × USB_DEVICES)) (s : St)
    (h : s.r ≠ WDI_SUCCESS) : flat_loop env ps s = s := by
  cases ps with
  | nil => rfl
  | cons p ps => simp [flat_loop, h]

theorem flat_loop_append (env : Env) (ps qs : List (wdi_device_info × USB_DEVICES))
    (s : St) :
    flat_loop env (ps ++ qs) s = flat_loop env qs (flat_loop env ps s) := by
  induction ps generalizing s with
  | nil => rfl
  | cons p ps ih =>
    by_cases h : s.r = WDI_SUCCESS
    · simp [flat_loop, h, ih]
    · simp [flat_loop, h, flat_loop_stop env qs s h]

/-- The body of the inner loop changes `r` only when the entry has the
vendor and product ID of the device. -/
theorem check_usb_body_r_changed (env : Env) (D : wdi_device_info) (t : USB_DEVICES)
    (s : St) (h : (check_usb_body env D t s).r ≠ s.r) :
    t = ⟨D.vid, D.pid⟩ := by
  rw [check_usb_body_eq] at h
  split at h
  · next hm =>
    cases t with
    | mk v p =>
      simp only [ids_equal, Bool.and_eq_true, beq_iff_eq] at hm
      rw [hm.1.1.1, hm.1.1.2]
  · exact absurd rfl h

/-- For one device, the flattened loop and the inner loop agree on what is
observable, and on the whole state when the status is still success. -/
theorem flat_loop_one_device (env : Env) (D : wdi_device_info) (ts : List USB_DEVICES)
    (hnd : ts.Nodup) (s : St) (hr : s.r = WDI_SUCCESS) :
    observable (flat_loop env (ts.map (fun T => (D, T))) s)
        = observable (check_usb_loop env D ts s)
      ∧ ((check_usb_loop env D ts s).r = WDI_SUCCESS →
          flat_loop env (ts.map (fun T => (D, T))) s = check_usb_loop env D ts s) := by
  induction ts generalizing s with
  | nil => exact ⟨rfl, fun _ => rfl⟩
  | cons t ts ih =>
    rw [List.nodup_cons] at hnd
    simp only [List.map_cons, flat_loop, if_pos hr, check_usb_loop]
    by_cases hr2 : (check_usb_body env D t s).r = WDI_SUCCESS
    · exact ih hnd.2 _ hr2
    · have ht : t = ⟨D.vid, D.pid⟩ :=
        check_usb_body_r_changed env D t s (by rw [hr]; exact hr2)
      rw [flat_loop_stop env _ _ hr2,
        check_usb_loop_no_match env D ts _ (Or.inl (ht ▸ hnd.1))]
      exact ⟨rfl, fun h => absurd h hr2⟩

/-- The nested loops and the flattened loop agree on what is observable, and
on the whole state when the status is still success, for a table without
repeated entries. -/
theorem nested_loops_eq_flat_loop (env : Env) (tbl : List USB_DEVICES) (hnd : tbl.Nodup)
    (devs : List wdi_device_info) (s : St) :
    observable (ldev_loop env tbl devs s)
        = observable (flat_loop env (flat_pairs tbl devs) s)
      ∧ ((ldev_loop env tbl devs s).r = WDI_SUCCESS →
          ldev_loop env tbl devs s = flat_loop env (flat_pairs tbl devs) s) := by
  induction devs generalizing s with
  | nil => exact ⟨rfl, fun _ => rfl⟩
  | cons D ds ih =>
    by_cases hr : s.r = WDI_SUCCESS
    · rw [ldev_loop, if_pos hr, flat_pairs, flat_loop_append]
      obtain ⟨hobs, hsame⟩ := flat_loop_one_device env D tbl hnd s hr
      by_cases hr2 : (check_usb_loop env D tbl s).r = WDI_SUCCESS
      · rw [hsame hr2]
        exact ih _
      · have hr3 : (flat_loop env (tbl.map (fun T => (D, T))) s).r ≠ WDI_SUCCESS := by
          have := congrArg (fun o => o.2.2) hobs
          simp only [observable] at this
          rw [this]; exact hr2
        rw [ldev_loop_stop env tbl ds _ hr2, flat_loop_stop env _ _ hr3]
        exact ⟨hobs.symm, fun h => absurd h hr2⟩
    · rw [ldev_loop_stop env tbl _ s hr, flat_loop_stop env _ s hr]
      exact ⟨rfl, fun _ => rfl⟩

theorem main_flat_eq (cfg : Config) (env : Env)
    (hp : env.sign_driver_inf = WDI_SUCCESS) (hx : cfg.opt_extract = 0) :
    main_flat cfg env = fallback_stage env (match_stage_flat env usb_devices
      (cert_stage cfg env
        { dev := dev_init, matching_device_found := false,
          r := env.sign_driver_inf, calls := [Call.sign_driver_inf dev_init] })) := by
  simp only [main_flat]
  rw [if_neg (by simp [hp, hx])]

theorem match_stage_eq_flat (env : Env) (s : St) (hi : installs s.calls = []) :
    observable (match_stage env usb_devices s)
        = observable (match_stage_flat env usb_devices s)
      ∧ ((match_stage env usb_devices s).matching_device_found = false →
          match_stage env usb_devices s = match_stage_flat env usb_devices s) := by
  unfold match_stage match_stage_flat
  by_cases he : env.create_list.1 = WDI_SUCCESS
  · simp only [if_pos he]
    obtain ⟨hobs, hsame⟩ := nested_loops_eq_flat_loop env usb_devices usb_devices_nodup
      env.create_list.2
      { s with matching_device_found := false, calls := s.calls ++ [Call.create_list],
               r := WDI_SUCCESS }
    refine ⟨hobs, fun hf => hsame ?_⟩
    exact (ldev_loop_untouched env usb_devices _ _
      (fun _ => ⟨rfl, by simp [installs_append, installs, hi]⟩) hf).1
  · rw [if_neg he, if_neg he]
    exact ⟨rfl, fun _ => rfl⟩

/-- C10: the nested loops of the code and the single loop over the flattened
(device, entry) pairs that ends at the first install failure issue the same
calls with the same descriptors, set the same match flag and leave the same
status, from every state and for every enumerated list and every assignment
of install statuses; so do the two whole runs of `main`.  The entries of
`usb_devices` are pairwise distinct, which is what the proof uses. -/
theorem main_nested_loops_eq_flat_loop (cfg : Config) (env : Env) :
    (∀ devs s, observable (ldev_loop env usb_devices devs s)
        = observable (flat_loop env (flat_pairs usb_devices devs) s))
      ∧ observable (main cfg env) = observable (main_flat cfg env)
      ∧ usb_devices.Nodup := by
  refine ⟨fun devs s =>
    (nested_loops_eq_flat_loop env usb_devices usb_devices_nodup devs s).1, ?_,
    usb_devices_nodup⟩
  by_cases hpx : env.sign_driver_inf ≠ WDI_SUCCESS ∨ cfg.opt_extract ≠ 0
  · simp only [main, main_with, main_flat]
    rw [if_pos hpx, if_pos hpx]
  · have hp : env.sign_driver_inf = WDI_SUCCESS := by
      by_contra h; exact hpx (Or.inl h)
    have hx : cfg.opt_extract = 0 := by
      by_contra h; exact hpx (Or.inr h)
    rw [main_eq cfg env hp hx, main_flat_eq cfg env hp hx]
    obtain ⟨hobs, hsame⟩ := match_stage_eq_flat env _ (cert_stage_start cfg env).2
    generalize match_stage env usb_devices (cert_stage cfg env
      { dev := dev_init, matching_device_found := false,
        r := env.sign_driver_inf, calls := [Call.sign_driver_inf dev_init] }) = a
      at hobs hsame
    generalize match_stage_flat env usb_devices (cert_stage cfg env
      { dev := dev_init, matching_device_found := false,
        r := env.sign_driver_inf, calls := [Call.sign_driver_inf dev_init] }) = b
      at hobs hsame
    by_cases hf : a.matching_device_found = true
    · have hfb : b.matching_device_found = true := by
        have := congrArg (fun o => o.2.1) hobs
        simp only [observable] at this
        rw [← this]; exact hf
      simp only [fallback_stage, hf, hfb, if_true]
      exact hobs
    · have hf2 : a.matching_device_found = false := by simpa using hf
      rw [hsame hf2]

/-- With a repeated table entry the two loops differ: after a failed install
the inner loop goes on to the second copy of the entry and installs again,
the flattened loop does not. -/
theorem nested_loops_differ_on_repeated_entry :
    (observable (ldev_loop (env_first_install_fails [dev_xu1541])
        [⟨0x0403, 0xc632⟩, ⟨0x0403, 0xc632⟩] [dev_xu1541]
        (loop_start cfg_plain (env_first_install_fails [dev_xu1541])))).1.length = 4
      ∧ (observable (flat_loop (env_first_install_fails [dev_xu1541])
        (flat_pairs [⟨0x0403, 0xc632⟩, ⟨0x0403, 0xc632⟩] [dev_xu1541])
        (loop_start cfg_plain (env_first_install_fails [dev_xu1541])))).1.length = 3 := by
  decide

end WdiOpenCBM
